import Mathlib

/-!
Verification of the Toil leader (`src/toil/leader.py`) against its
specification.  The Python fragments that the claims concern are embedded
shallowly:

* job records are registered in a heap `JobID → JobRecord` keyed by their
  `jobStoreID`; Python object aliasing (several containers holding the same
  `JobWrapper` object) is modelled by storing IDs in the containers and
  reading the one record per ID from the heap;
* Python dicts are association lists (`List (key × value)`), Python sets are
  `Finset`s;
* Python exceptions (`KeyError`, `ValueError`, `IndexError`, failing
  `assert` statements) are `Except` errors;
* the recursive traversals receive a fuel parameter: `.error .fuel` marks
  fuel exhaustion and every theorem is stated for runs that return `.ok`.
-/

abbrev JobID := Nat

inductive PyErr where
  | keyError
  | valueError
  | indexError
  | assertionError
  | fuel
  deriving DecidableEq, Repr

/-- Operations a fragment performs on the persistent job store. -/
inductive StoreOp where
  | load (jobStoreID : JobID)
  | update (jobStoreID : JobID)
  | deleteFile (fileID : Nat)
  deriving DecidableEq, Repr

/-- One entry of a successor group on a job's `stack`:
`(succID, memory, cores, disk, preemptable, predecessorID|null)`. -/
structure SuccTuple where
  succID : JobID
  memory : Nat
  cores : Nat
  disk : Nat
  preemptable : Bool
  predecessorID : Option JobID
  deriving DecidableEq, Repr

/-- One entry of a service group on a job's `services`:
`(serviceID, memory, cores, disk, startJobStoreID, terminateJobStoreID,
errorJobStoreID)`. -/
structure ServiceTuple where
  serviceID : JobID
  memory : Nat
  cores : Nat
  disk : Nat
  startJobStoreID : Nat
  terminateJobStoreID : Nat
  errorJobStoreID : Nat
  deriving DecidableEq, Repr

/-- The fields of a `JobWrapper` record that the embedded fragments read or
write.  The record's `jobStoreID` is the heap key under which it is
registered, command payloads are opaque (`Option Nat`). -/
structure JobRecord where
  command : Option Nat
  checkpoint : Option Nat
  services : List (List ServiceTuple)
  stack : List (List SuccTuple)
  predecessorNumber : Nat
  predecessorsFinished : Finset JobID
  deriving DecidableEq

/-- Python dict lookup, `m[k]` as an `Option`. -/
def lookupA {α : Type} : List (JobID × α) → JobID → Option α
  | [], _ => none
  | p :: ps, k => if p.1 = k then some p.2 else lookupA ps k

/-- Python dict assignment `m[k] = v`: replaces in place, appends when new. -/
def setA {α : Type} : List (JobID × α) → JobID → α → List (JobID × α)
  | [], k, v => [(k, v)]
  | p :: ps, k, v => if p.1 = k then (k, v) :: ps else p :: setA ps k v

/-- Python dict deletion `m.pop(k)` (the caller checks presence). -/
def eraseA {α : Type} : List (JobID × α) → JobID → List (JobID × α)
  | [], _ => []
  | p :: ps, k => if p.1 = k then ps else p :: eraseA ps k

/-- Heap update: replace the record registered under `i`. -/
def setJob (h : JobID → JobRecord) (i : JobID) (r : JobRecord) : JobID → JobRecord :=
  fun j => if j = i then r else h j

/-- The mutable scheduling state of `ToilState` plus the leader's in-memory
record registry (`heap`) and the log of job-store operations performed. -/
structure TState where
  heap : JobID → JobRecord
  successorJobStoreIDToPredecessorJobs : List (JobID × List JobID)
  successorCounts : List (JobID × Int)
  serviceJobStoreIDToPredecessorJob : List (JobID × JobID)
  servicesIssued : List (JobID × List (JobID × (Nat × Nat × Nat)))
  jobsToBeScheduledWithMultiplePredecessors : Finset JobID
  updatedJobs : Finset (JobID × Int)
  hasFailedSuccessors : Finset JobID
  failedSuccessors : Finset JobID
  totalFailedJobs : Finset JobID
  opLog : List StoreOp

/-- The fresh state `ToilState.__init__` builds before calling
`_buildToilState`: every index empty, the heap holding the job store's
records. -/
def initTState (heap : JobID → JobRecord) : TState where
  heap := heap
  successorJobStoreIDToPredecessorJobs := []
  successorCounts := []
  serviceJobStoreIDToPredecessorJob := []
  servicesIssued := []
  jobsToBeScheduledWithMultiplePredecessors := ∅
  updatedJobs := ∅
  hasFailedSuccessors := ∅
  failedSuccessors := ∅
  totalFailedJobs := ∅
  opLog := []

/-- The guard of `_buildToilState`: the job is directly runnable when it has
a command, is a checkpoint, has services, or has an empty stack
(leader.py lines 216-219). -/
def directlyRunnable (r : JobRecord) : Bool :=
  r.command.isSome || r.checkpoint.isSome || !r.services.isEmpty || r.stack.isEmpty

mutual

/-- `ToilState._buildToilState` (leader.py lines 195-296).  The traversal
from job `jId`: a directly runnable job is added to `updatedJobs` (its
command restored from its checkpoint), otherwise its top successor group is
recorded in `successorCounts` and each successor processed. -/
def buildToilState (fuel : Nat) (jId : JobID) (s : TState) : Except PyErr TState :=
  match fuel with
  | 0 => .error .fuel
  | fuel' + 1 =>
    let jw := s.heap jId
    if directlyRunnable jw then
      -- lines 224-227: updatedJobs.add((jobWrapper, 0)); command := checkpoint.
      -- The set holds a reference to the mutated record, so the heap write
      -- is applied before the ID is inserted.
      let s1 : TState :=
        if jw.checkpoint.isSome then
          { s with heap := setJob s.heap jId { jw with command := jw.checkpoint } }
        else s
      .ok { s1 with updatedJobs := insert (jId, (0 : Int)) s1.updatedJobs }
    else
      -- lines 229-253: record the successor count of the top group and
      -- process each successor tuple in order.
      let group := jw.stack.getLastD []
      let s1 : TState :=
        { s with successorCounts := setA s.successorCounts jId (group.length : Int) }
      buildToilStateSuccessors fuel' jId group s1
termination_by (fuel, 0)

/-- The `for successorJobStoreTuple in jobWrapper.stack[-1]` loop of
`_buildToilState` (leader.py lines 253-296). -/
def buildToilStateSuccessors (fuel : Nat) (jId : JobID) (ts : List SuccTuple)
    (s : TState) : Except PyErr TState :=
  match ts with
  | [] => .ok s
  | t :: ts' =>
    let sid := t.succID
    match lookupA s.successorJobStoreIDToPredecessorJobs sid with
    | none =>
      -- lines 258-280: first visit of this successor.
      let m1 := setA s.successorJobStoreIDToPredecessorJobs sid [jId]
      let s1 : TState := { s with successorJobStoreIDToPredecessorJobs := m1 }
      match t.predecessorID with
      | some _ =>
        -- lines 265-275: a join node; load it (getJob) and cache it.
        let s2 : TState := { s1 with opLog := s1.opLog ++ [.load sid] }
        if sid ∈ s2.jobsToBeScheduledWithMultiplePredecessors then
          .error .assertionError  -- line 271
        else
          let c1 := insert sid s2.jobsToBeScheduledWithMultiplePredecessors
          let s3 : TState := { s2 with jobsToBeScheduledWithMultiplePredecessors := c1 }
          match processSuccessorWithMultiplePredecessors fuel jId sid s3 with
          | .error e => .error e
          | .ok s4 => buildToilStateSuccessors fuel jId ts' s4
      | none =>
        -- lines 277-280: single predecessor, recurse into getJob(sid).
        let s2 : TState := { s1 with opLog := s1.opLog ++ [.load sid] }
        match buildToilState fuel sid s2 with
        | .error e => .error e
        | .ok s3 => buildToilStateSuccessors fuel jId ts' s3
    | some l =>
      -- lines 282-296: the successor was already seen.
      if jId ∈ l then .error .assertionError  -- line 286
      else
        let m1 := setA s.successorJobStoreIDToPredecessorJobs sid (l ++ [jId])
        let s1 : TState := { s with successorJobStoreIDToPredecessorJobs := m1 }
        if sid ∈ s1.jobsToBeScheduledWithMultiplePredecessors then
          match processSuccessorWithMultiplePredecessors fuel jId sid s1 with
          | .error e => .error e
          | .ok s2 => buildToilStateSuccessors fuel jId ts' s2
        else
          buildToilStateSuccessors fuel jId ts' s1
termination_by (fuel, ts.length + 2)

/-- `processSuccessorWithMultiplePredecessors` (leader.py lines 235-250):
mark the predecessor `jId` finished in the join record `sid`; when all
predecessors are finished, remove `sid` from the multi-predecessor cache and
recurse into it. -/
def processSuccessorWithMultiplePredecessors (fuel : Nat) (jId sid : JobID)
    (s : TState) : Except PyErr TState :=
  let sw := s.heap sid
  let swAdded : JobRecord := { sw with predecessorsFinished := insert jId sw.predecessorsFinished }
  let s1 : TState :=
    if jId ∈ sw.predecessorsFinished then s
    else { s with heap := setJob s.heap sid swAdded }
  let sw1 := s1.heap sid
  if sw1.predecessorsFinished.card ≤ sw1.predecessorNumber then  -- line 243
    if sw1.predecessorsFinished.card = sw1.predecessorNumber then
      -- line 247: dict.pop raises KeyError when the key is absent.
      if sid ∈ s1.jobsToBeScheduledWithMultiplePredecessors then
        let c1 := s1.jobsToBeScheduledWithMultiplePredecessors.erase sid
        buildToilState fuel sid { s1 with jobsToBeScheduledWithMultiplePredecessors := c1 }
      else .error .keyError
    else .ok s1
  else .error .assertionError
termination_by (fuel, 1)

end

/-- A successor ready to issue to the batch system:
`(successorJobStoreID, memory, cores, disk, preemptable)` (leader.py
line 780). -/
abbrev IssuedSucc := JobID × Nat × Nat × Nat × Bool

/-- Leader.innerLoop lines 770-780, shared by both exits of the
multiple-predecessor case: skip the successor while its predecessors have
not all finished, otherwise pop it from the cache and hand it back for
scheduling. -/
def joinReadyCheck (t : SuccTuple) (s : TState) : Except PyErr (TState × Option IssuedSucc) :=
  let sw := s.heap t.succID
  if sw.predecessorsFinished.card ≤ sw.predecessorNumber then  -- line 772
    if sw.predecessorsFinished.card < sw.predecessorNumber then
      .ok (s, none)  -- line 774: continue
    else
      -- line 777: dict.pop raises KeyError when the key is absent.
      if t.succID ∈ s.jobsToBeScheduledWithMultiplePredecessors then
        let c1 := s.jobsToBeScheduledWithMultiplePredecessors.erase t.succID
        .ok ({ s with jobsToBeScheduledWithMultiplePredecessors := c1 },
             some (t.succID, t.memory, t.cores, t.disk, t.preemptable))
      else .error .keyError
  else .error .assertionError

/-- One iteration of the `for successorJobStoreID, ... in
jobWrapper.stack[-1]` loop of Leader.innerLoop (leader.py lines 729-780) for
the tuple `t`: the returned option is the successor appended to the
scheduling list by line 780, `none` when the iteration ends in `continue`. -/
def scheduleSuccessorStep (jId : JobID) (t : SuccTuple) (s : TState) :
    Except PyErr (TState × Option IssuedSucc) :=
  let sid := t.succID
  -- lines 731-733: append jobWrapper to successorJobStoreIDToPredecessorJobs[sid].
  let l := (lookupA s.successorJobStoreIDToPredecessorJobs sid).getD []
  let m1 := setA s.successorJobStoreIDToPredecessorJobs sid (l ++ [jId])
  let s1 : TState := { s with successorJobStoreIDToPredecessorJobs := m1 }
  match t.predecessorID with
  | none =>
    -- line 780: a single-predecessor successor always schedules.
    .ok (s1, some (sid, t.memory, t.cores, t.disk, t.preemptable))
  | some p =>
    -- lines 741-743: load the join record into the cache when missing.
    let c1 := insert sid s1.jobsToBeScheduledWithMultiplePredecessors
    let log1 := s1.opLog ++ [.load sid]
    let s2 : TState :=
      if sid ∈ s1.jobsToBeScheduledWithMultiplePredecessors then s1
      else { s1 with jobsToBeScheduledWithMultiplePredecessors := c1, opLog := log1 }
    -- line 746: predecessorsFinished.add(predecessorID).
    let sw := s2.heap sid
    let swAdd : JobRecord := { sw with predecessorsFinished := insert p sw.predecessorsFinished }
    let s3 : TState := { s2 with heap := setJob s2.heap sid swAdd }
    if sid ∈ s3.failedSuccessors then
      -- lines 749-768: the successor already failed.
      let s4 : TState := { s3 with hasFailedSuccessors := insert jId s3.hasFailedSuccessors }
      match lookupA s4.successorCounts jId with
      | none => .error .keyError  -- line 756 indexes successorCounts[jobStoreID]
      | some c =>
        let s5 : TState := { s4 with successorCounts := setA s4.successorCounts jId (c - 1) }
        if c - 1 < 0 then .error .assertionError  -- line 757
        else
          -- line 758: list.remove raises ValueError when absent.
          match lookupA s5.successorJobStoreIDToPredecessorJobs sid with
          | none => .error .keyError
          | some l2 =>
            if jId ∈ l2 then
              let l3 := l2.erase jId
              let m2 :=
                if l3.isEmpty then eraseA s5.successorJobStoreIDToPredecessorJobs sid
                else setA s5.successorJobStoreIDToPredecessorJobs sid l3
              let s6 : TState := { s5 with successorJobStoreIDToPredecessorJobs := m2 }
              if c - 1 = 0 then
                -- lines 764-768: no active successors left; requeue and continue.
                let cnt7 := eraseA s6.successorCounts jId
                let upd7 := insert (jId, (0 : Int)) s6.updatedJobs
                .ok ({ s6 with successorCounts := cnt7, updatedJobs := upd7 }, none)
              else joinReadyCheck t s6
            else .error .valueError
    else joinReadyCheck t s3

/-- The whole loop of leader.py lines 729-780, accumulating the successors
to issue. -/
def scheduleSuccessorsLoop (jId : JobID) :
    List SuccTuple → TState → List IssuedSucc → Except PyErr (TState × List IssuedSucc)
  | [], s, succs => .ok (s, succs)
  | t :: ts, s, succs =>
    match scheduleSuccessorStep jId t s with
    | .error e => .error e
    | .ok (s2, none) => scheduleSuccessorsLoop jId ts s2 succs
    | .ok (s2, some x) => scheduleSuccessorsLoop jId ts s2 (succs ++ [x])

/-- The successor-scheduling case of Leader.innerLoop (leader.py lines
715-781): record the top group's size in `successorCounts`, then walk the
group collecting the successors to issue.  The case is entered only under
the `elif len(jobWrapper.stack) > 0` guard, and line 716 asserts the top
group non-empty; an empty `stack.getLastD []` covers both. -/
def scheduleSuccessors (jId : JobID) (s : TState) : Except PyErr (TState × List IssuedSucc) :=
  let jw := s.heap jId
  let group := jw.stack.getLastD []
  if group.isEmpty then .error .assertionError  -- line 716
  else if (lookupA s.successorCounts jId).isSome then .error .assertionError  -- line 722
  else
    let s1 : TState := { s with successorCounts := setA s.successorCounts jId (group.length : Int) }
    scheduleSuccessorsLoop jId group s1 []

/-- The body of the `for predecessorJob in ...pop(jobStoreID)` loop of
`Leader._updatePredecessorStatus` (leader.py lines 1228-1248): decrement the
predecessor's successor count; at zero drop the counter, pop the
predecessor's stack and requeue it.  The `assert predecessorJob not in
self.toilState.updatedJobs` at line 1244 compares a JobWrapper object with
(JobWrapper, int) tuples and therefore always holds; it is a no-op here. -/
def updatePredecessorStep (pId : JobID) (s : TState) : Except PyErr TState :=
  match lookupA s.successorCounts pId with
  | none => .error .keyError  -- line 1232 indexes successorCounts[...]
  | some c =>
    let s1 : TState := { s with successorCounts := setA s.successorCounts pId (c - 1) }
    if c - 1 = 0 then
      let s2 : TState := { s1 with successorCounts := eraseA s1.successorCounts pId }
      let st := (s2.heap pId).stack
      if st.isEmpty then .error .indexError  -- list.pop() on an empty stack
      else
        let r3 : JobRecord := { s2.heap pId with stack := st.dropLast }
        let s3 : TState := { s2 with heap := setJob s2.heap pId r3 }
        .ok { s3 with updatedJobs := insert (pId, (0 : Int)) s3.updatedJobs }
    else .ok s1

/-- The loop of lines 1228-1248 over the predecessor list. -/
def updatePredecessorsList : List JobID → TState → Except PyErr TState
  | [], s => .ok s
  | p :: ps, s =>
    match updatePredecessorStep p s with
    | .error e => .error e
    | .ok s' => updatePredecessorsList ps s'

/-- `Leader._updatePredecessorStatus` (leader.py lines 1201-1248). -/
def updatePredecessorStatus (jobStoreID : JobID) (s : TState) : Except PyErr TState :=
  match lookupA s.serviceJobStoreIDToPredecessorJob jobStoreID with
  | some predId =>
    -- lines 1205-1214: a service job.
    let s1 : TState :=
      { s with serviceJobStoreIDToPredecessorJob :=
          eraseA s.serviceJobStoreIDToPredecessorJob jobStoreID }
    match lookupA s1.servicesIssued predId with
    | none => .error .keyError  -- line 1208 indexes servicesIssued[...]
    | some svcs =>
      match lookupA svcs jobStoreID with
      | none => .error .keyError  -- line 1208: inner dict.pop
      | some _ =>
        let svcs' := eraseA svcs jobStoreID
        if svcs'.isEmpty then
          let m2 := eraseA s1.servicesIssued predId
          let upd2 := insert (predId, (0 : Int)) s1.updatedJobs
          .ok { s1 with servicesIssued := m2, updatedJobs := upd2 }
        else .ok { s1 with servicesIssued := setA s1.servicesIssued predId svcs' }
  | none =>
    match lookupA s.successorJobStoreIDToPredecessorJobs jobStoreID with
    | none =>
      -- lines 1216-1221: the root job; the three consistency asserts.
      if s.updatedJobs = ∅ then
        if s.successorJobStoreIDToPredecessorJobs = [] then
          if s.successorCounts = [] then .ok s else .error .assertionError
        else .error .assertionError
      else .error .assertionError
    | some preds =>
      -- lines 1223-1248: a non-root, non-service job.
      let m1 := eraseA s.successorJobStoreIDToPredecessorJobs jobStoreID
      updatePredecessorsList preds { s with successorJobStoreIDToPredecessorJobs := m1 }

mutual

/-- `successorRecursion` inside `Leader.getSuccessors` (leader.py lines
1095-1115).  The two nested loops (`for successorList in jobWrapper.stack`,
`for successorJobStoreTuple in successorList`) visit the tuples of `stack`
in the order of `stack.flatten`. -/
def successorRecursion (jobStoreExists : JobID → Bool) (heap : JobID → JobRecord)
    (fuel : Nat) (jw : JobRecord) (successors alreadySeenSuccessors : Finset JobID) :
    Except PyErr (Finset JobID × Finset JobID) :=
  match fuel with
  | 0 => .error .fuel
  | fuel' + 1 =>
    successorRecursionList jobStoreExists heap fuel' jw.stack.flatten
      successors alreadySeenSuccessors
termination_by (fuel, 0)

/-- The tuple loop of `successorRecursion`: an unseen successor is added to
both sets, and traversed only when it still exists in the job store. -/
def successorRecursionList (jobStoreExists : JobID → Bool) (heap : JobID → JobRecord)
    (fuel : Nat) (ts : List SuccTuple) (successors alreadySeenSuccessors : Finset JobID) :
    Except PyErr (Finset JobID × Finset JobID) :=
  match ts with
  | [] => .ok (successors, alreadySeenSuccessors)
  | t :: ts' =>
    if t.succID ∈ alreadySeenSuccessors then
      successorRecursionList jobStoreExists heap fuel ts' successors alreadySeenSuccessors
    else
      let successors1 := insert t.succID successors
      let seen1 := insert t.succID alreadySeenSuccessors
      if jobStoreExists t.succID then
        match successorRecursion jobStoreExists heap fuel (heap t.succID) successors1 seen1 with
        | .error e => .error e
        | .ok (successors2, seen2) =>
          successorRecursionList jobStoreExists heap fuel ts' successors2 seen2
      else successorRecursionList jobStoreExists heap fuel ts' successors1 seen1
termination_by (fuel, ts.length + 1)

end

/-- `Leader.getSuccessors` (leader.py lines 1085-1119): walk the whole
successor graph of `jw`, returning the set of newly found successors and the
grown `alreadySeenSuccessors`. -/
def getSuccessors (jobStoreExists : JobID → Bool) (heap : JobID → JobRecord)
    (fuel : Nat) (jw : JobRecord) (alreadySeenSuccessors : Finset JobID) :
    Except PyErr (Finset JobID × Finset JobID) :=
  successorRecursion jobStoreExists heap fuel jw ∅ alreadySeenSuccessors

/-- The ServiceManager state (leader.py lines 302-336): the set of jobs
whose services are being started, the three queues, and the in-flight
counter `serviceJobsIssuedToServiceManager`. -/
structure ServiceManagerState where
  jobWrappersWithServicesBeingStarted : Finset JobID
  jobWrappersWithServicesToStart : List JobID
  jobWrappersWithServicesThatHaveStarted : List JobID
  serviceJobWrappersToStart : List (JobID × Nat × Nat × Nat)
  serviceJobsIssuedToServiceManager : Int

/-- `ServiceManager.scheduleServices` (leader.py lines 344-359): the job
joins the being-started set, the counter grows by the total number of
service tuples plus one, and the job is queued for the starter thread. -/
def scheduleServices (sm : ServiceManagerState) (jId : JobID) (jw : JobRecord) :
    ServiceManagerState :=
  let started := insert jId sm.jobWrappersWithServicesBeingStarted
  let counted := sm.serviceJobsIssuedToServiceManager + (((jw.services.map List.length).sum : Int) + 1)
  let queued := sm.jobWrappersWithServicesToStart ++ [jId]
  { sm with jobWrappersWithServicesBeingStarted := started
            serviceJobsIssuedToServiceManager := counted
            jobWrappersWithServicesToStart := queued }

/-- `ServiceManager.getJobWrapperWhoseServicesAreRunning` (leader.py lines
361-375): an empty queue is the `Empty` timeout, returning None. -/
def getJobWrapperWhoseServicesAreRunning (sm : ServiceManagerState) :
    Except PyErr (Option JobID × ServiceManagerState) :=
  match sm.jobWrappersWithServicesThatHaveStarted with
  | [] => .ok (none, sm)
  | j :: rest =>
    -- line 370: set.remove raises KeyError when the element is absent.
    if j ∈ sm.jobWrappersWithServicesBeingStarted then
      if 0 ≤ sm.serviceJobsIssuedToServiceManager then  -- line 371
        let left := sm.jobWrappersWithServicesBeingStarted.erase j
        let counted := sm.serviceJobsIssuedToServiceManager - 1
        let sm1 : ServiceManagerState :=
          { sm with jobWrappersWithServicesThatHaveStarted := rest
                    jobWrappersWithServicesBeingStarted := left
                    serviceJobsIssuedToServiceManager := counted }
        .ok (some j, sm1)
      else .error .assertionError
    else .error .keyError

/-- `ServiceManager.getServiceJobsToStart` (leader.py lines 377-390). -/
def getServiceJobsToStart (sm : ServiceManagerState) :
    Except PyErr (Option (JobID × Nat × Nat × Nat) × ServiceManagerState) :=
  match sm.serviceJobWrappersToStart with
  | [] => .ok (none, sm)
  | jt :: rest =>
    if 0 ≤ sm.serviceJobsIssuedToServiceManager then  -- line 386
      let counted := sm.serviceJobsIssuedToServiceManager - 1
      let sm1 : ServiceManagerState :=
        { sm with serviceJobWrappersToStart := rest
                  serviceJobsIssuedToServiceManager := counted }
      .ok (some jt, sm1)
    else .error .assertionError

/-- `Leader.killJobs` (leader.py lines 962-969): every killed job is routed
through `processFinishedJob(jobBatchSystemID, 1)`; the list of those calls
is what this model returns. -/
def killJobs (jobsToKill : List JobID) : List (JobID × Int) :=
  jobsToKill.map (fun j => (j, (1 : Int)))

/-- What one call of `Leader.reissueMissingJobs` produces: the new
`reissueMissingJobs_missingHash`, the kill list, the
`processFinishedJob(id, 1)` calls `killJobs` makes for it, and the
function's return value. -/
structure ReissueResult where
  missingHash : List (JobID × Nat)
  jobsToKill : List JobID
  processFinishedCalls : List (JobID × Int)
  hasNoMissingJobs : Bool
  deriving DecidableEq, Repr

/-- The `for jobBatchSystemID in set(jobBatchSystemIDsSet.difference(
runningJobs))` loop of `Leader.reissueMissingJobs` (leader.py lines
1011-1022); the Python set it iterates has no fixed order, here the jobs
are visited in tracked-list order (the counted facts are order-independent
because each step touches one distinct key). -/
def reissueMissingJobsLoop (killAfterNTimesMissing : Nat) :
    List JobID → List (JobID × Nat) → List JobID → List (JobID × Nat) × List JobID
  | [], hash, kills => (hash, kills)
  | j :: js, hash, kills =>
    let hash1 :=
      match lookupA hash j with
      | some c => setA hash j (c + 1)  -- line 1014
      | none => setA hash j 1  -- line 1016
    let timesMissing := (lookupA hash1 j).getD 0  -- line 1017
    if timesMissing = killAfterNTimesMissing then  -- line 1020
      reissueMissingJobsLoop killAfterNTimesMissing js (eraseA hash1 j) (kills ++ [j])
    else reissueMissingJobsLoop killAfterNTimesMissing js hash1 kills

/-- `Leader.reissueMissingJobs` (leader.py lines 994-1025).  `trackedIDs`
are the keys of `jobBatchSystemIDToIssuedJob` (`self.getJobIDs()`),
`runningJobs` the batch system's issued set, `missingHash` the persistent
`reissueMissingJobs_missingHash`. -/
def reissueMissingJobs (trackedIDs : List JobID) (runningJobs : Finset JobID)
    (missingHash : List (JobID × Nat)) (killAfterNTimesMissing : Nat) :
    Except PyErr ReissueResult :=
  -- lines 1004-1007: drop hash entries whose job the leader no longer tracks.
  let hash1 := missingHash.filter (fun p => p.1 ∈ trackedIDs)
  -- line 1008: assert runningJobs.issubset(jobBatchSystemIDsSet).
  if ∀ x ∈ runningJobs, x ∈ trackedIDs then
    let missingNow := trackedIDs.filter (fun j => j ∉ runningJobs)
    let out := reissueMissingJobsLoop killAfterNTimesMissing missingNow hash1 []
    .ok ⟨out.1, out.2, killJobs out.2, out.1.isEmpty⟩  -- lines 1023-1024
  else .error .assertionError

/-- What `FailedJobsException.__init__` records (leader.py lines 470-487):
the locator and `numberOfFailedJobs = len(failedJobs)`. -/
structure FailedJobsException where
  jobStoreLocator : String
  numberOfFailedJobs : Nat
  deriving DecidableEq, Repr

/-- The outcome of unpickling the shared `rootJobReturnValue` file. -/
inductive UnpickleResult where
  | ok (v : Nat)
  | eofError
  | otherError
  deriving DecidableEq, Repr

/-- How `Leader.run` ends. -/
inductive RunOutcome where
  | ok (v : Nat)
  | failedJobsException (e : FailedJobsException)
  | unhandledError
  deriving DecidableEq, Repr

/-- The tail of `Leader.run` after the main loop and the shutdown blocks
(leader.py lines 593-612): filter `totalFailedJobs` by existence in the job
store, raise `FailedJobsException` when any remain, otherwise unpickle the
root job's return value — re-raising `FailedJobsException` on `EOFError`
and letting any other unpickling error propagate. -/
def leaderRunEnd (totalFailedJobs : Finset JobID) (jobStoreExists : JobID → Bool)
    (jobStoreLocator : String) (rootJobReturnValue : UnpickleResult) : RunOutcome :=
  let failed := totalFailedJobs.filter (fun j => jobStoreExists j = true)
  if 0 < failed.card then .failedJobsException ⟨jobStoreLocator, failed.card⟩
  else
    match rootJobReturnValue with
    | .ok v => .ok v
    | .eofError => .failedJobsException ⟨jobStoreLocator, failed.card⟩
    | .otherError => .unhandledError

/-- Python `cache[jobId]`: raises `KeyError` when the key is absent. -/
def dictGetitem (cache : List (JobID × JobRecord)) (jobId : JobID) :
    Except PyErr JobRecord :=
  match lookupA cache jobId with
  | some r => .ok r
  | none => .error .keyError

/-- `getJob` inside `ToilState._buildToilState` (leader.py lines 205-212):
with a cache, `jobCache[jobId]` is tried and only a `ValueError` falls back
to `jobStore.load(jobId)`. -/
def getJob (jobCache : Option (List (JobID × JobRecord))) (jobStoreLoad : JobID → JobRecord)
    (jobId : JobID) : Except PyErr JobRecord :=
  match jobCache with
  | some cache =>
    match dictGetitem cache jobId with
    | .ok r => .ok r
    | .error e => if e = .valueError then .ok (jobStoreLoad jobId) else .error e
  | none => .ok (jobStoreLoad jobId)

/-- A job store as the frame claims see it: the job records and the flag
files. -/
structure JobStoreState where
  jobs : JobID → JobRecord
  files : Nat → Bool

/-- The effect of one logged operation on the persistent job store: a load
changes nothing, an update rewrites a record, a deleteFile removes a flag
file. -/
def applyStoreOp (st : JobStoreState) : StoreOp → JobStoreState
  | .load _ => st
  | .update i => { st with jobs := setJob st.jobs i (st.jobs i) }
  | .deleteFile f => { st with files := fun g => if g = f then false else st.files g }

/-- The effect of a whole operation log on the persistent job store. -/
def applyStoreOps (st : JobStoreState) : List StoreOp → JobStoreState
  | [] => st
  | op :: ops => applyStoreOps (applyStoreOp st op) ops

/-- A property of the success value of an embedded fragment: error runs
(a raised Python exception, or fuel exhaustion) are not constrained. -/
def ResultOK {ε α : Type} (r : Except ε α) (P : α → Prop) : Prop :=
  match r with
  | .ok a => P a
  | .error _ => True

theorem resultOK_ok {ε α : Type} {P : α → Prop} {a : α} (h : P a) :
    ResultOK (Except.ok a : Except ε α) P := h

theorem resultOK_error {ε α : Type} {P : α → Prop} {e : ε} :
    ResultOK (Except.error e : Except ε α) P := trivial

theorem lookupA_setA_self {α : Type} (m : List (JobID × α)) (k : JobID) (v : α) :
    lookupA (setA m k v) k = some v := by
  induction m with
  | nil => simp [setA, lookupA]
  | cons p ps ih =>
    by_cases h : p.1 = k
    · simp [setA, h, lookupA]
    · simp [setA, h, lookupA, ih]

theorem lookupA_setA_ne {α : Type} (m : List (JobID × α)) {k k' : JobID} (h : k' ≠ k)
    (v : α) : lookupA (setA m k v) k' = lookupA m k' := by
  have hk : ¬ k = k' := fun hh => h hh.symm
  induction m with
  | nil => simp [setA, lookupA, hk]
  | cons p ps ih =>
    by_cases hp : p.1 = k
    · have hpk : ¬ p.1 = k' := fun hh => h (hh ▸ hp)
      simp [setA, if_pos hp, lookupA, hpk, hk]
    · simp [setA, if_neg hp, lookupA, ih]

theorem lookupA_eraseA_ne {α : Type} (m : List (JobID × α)) {k k' : JobID} (h : k' ≠ k) :
    lookupA (eraseA m k) k' = lookupA m k' := by
  induction m with
  | nil => simp [eraseA]
  | cons p ps ih =>
    by_cases hp : p.1 = k
    · have hpk : ¬ p.1 = k' := fun hh => h (hh ▸ hp)
      simp [eraseA, if_pos hp, lookupA, hpk]
    · simp [eraseA, if_neg hp, lookupA, ih]

theorem lookupA_eq_none {α : Type} (m : List (JobID × α)) (k : JobID)
    (h : k ∉ m.map Prod.fst) : lookupA m k = none := by
  induction m with
  | nil => rfl
  | cons p ps ih =>
    simp only [List.map_cons, List.mem_cons] at h
    push_neg at h
    have hpk : ¬ p.1 = k := fun hh => h.1 hh.symm
    simp [lookupA, hpk, ih h.2]

theorem lookupA_eraseA_self {α : Type} (m : List (JobID × α)) (k : JobID)
    (h : (m.map Prod.fst).Nodup) : lookupA (eraseA m k) k = none := by
  induction m with
  | nil => rfl
  | cons p ps ih =>
    simp only [List.map_cons, List.nodup_cons] at h
    by_cases hp : p.1 = k
    · simp only [eraseA, if_pos hp]
      exact lookupA_eq_none ps k (by rw [← hp]; exact h.1)
    · simp only [eraseA, if_neg hp, lookupA, if_neg hp]
      exact ih h.2

theorem lookupA_isSome_setA {α : Type} (m : List (JobID × α)) (k : JobID) (v : α)
    (i : JobID) (h : (lookupA m i).isSome = true) :
    (lookupA (setA m k v) i).isSome = true := by
  by_cases hik : i = k
  · subst hik; simp [lookupA_setA_self]
  · rwa [lookupA_setA_ne m hik]

theorem lookupA_filter_key {α : Type} (m : List (JobID × α)) (f : JobID → Bool)
    (k : JobID) :
    lookupA (m.filter fun p => f p.1) k = if f k then lookupA m k else none := by
  induction m with
  | nil => simp [lookupA]
  | cons p ps ih =>
    by_cases hp : p.1 = k
    · subst hp
      by_cases hf : f p.1
      · simp [List.filter_cons, hf, lookupA, ih]
      · simp only [List.filter_cons, Bool.not_eq_true] at hf ⊢
        simp [hf, lookupA, ih]
    · by_cases hf : f p.1
      · simp [List.filter_cons, hf, lookupA, hp, ih]
      · simp only [List.filter_cons, Bool.not_eq_true] at hf ⊢
        simp [hf, lookupA, hp, ih]

theorem mem_getLastD {α : Type} {l : List (List α)} {t : α}
    (h : t ∈ l.getLastD []) : ∃ g ∈ l, t ∈ g := by
  cases l with
  | nil => simp at h
  | cons g gs =>
    refine ⟨(g :: gs).getLast (by simp), List.getLast_mem _, ?_⟩
    simpa [List.getLastD_eq_getLast?, List.getLast?_eq_getLast] using h

/-- What one `_buildToilState` call can do to the state, as far as the
claims need: keys of `successorJobStoreIDToPredecessorJobs` are never
removed, heap writes touch only `command` and `predecessorsFinished` (every
record's `stack` and `predecessorNumber` survive), and the operation log
grows by loads only. -/
def BuildEvolves (s s' : TState) : Prop :=
  (∀ i, (lookupA s.successorJobStoreIDToPredecessorJobs i).isSome = true →
        (lookupA s'.successorJobStoreIDToPredecessorJobs i).isSome = true) ∧
  (∀ j, (s'.heap j).stack = (s.heap j).stack ∧
        (s'.heap j).predecessorNumber = (s.heap j).predecessorNumber) ∧
  (∃ ops, s'.opLog = s.opLog ++ ops ∧ ∀ op ∈ ops, ∃ i, op = StoreOp.load i)

theorem buildEvolves_refl (s : TState) : BuildEvolves s s :=
  ⟨fun _ h => h, fun _ => ⟨rfl, rfl⟩, ⟨[], by simp⟩⟩

theorem buildEvolves_trans {a b c : TState} (h1 : BuildEvolves a b)
    (h2 : BuildEvolves b c) : BuildEvolves a c := by
  obtain ⟨k1, h1h, o1, ho1, ho1l⟩ := h1
  obtain ⟨k2, h2h, o2, ho2, ho2l⟩ := h2
  refine ⟨fun i hi => k2 i (k1 i hi), fun j => ?_, ⟨o1 ++ o2, ?_, ?_⟩⟩
  · exact ⟨(h2h j).1.trans (h1h j).1, (h2h j).2.trans (h1h j).2⟩
  · rw [ho2, ho1, List.append_assoc]
  · intro op hop
    rcases List.mem_append.mp hop with h | h
    · exact ho1l op h
    · exact ho2l op h

theorem buildEvolves_join_of (n : Nat)
    (hb : ∀ jId s s', buildToilState n jId s = .ok s' → BuildEvolves s s') :
    ∀ jId sid s s',
      processSuccessorWithMultiplePredecessors n jId sid s = .ok s' →
      BuildEvolves s s' := by
  intro jId sid s s' h
  by_cases hmem : jId ∈ (s.heap sid).predecessorsFinished
  all_goals
    simp only [processSuccessorWithMultiplePredecessors, hmem, if_pos, if_neg,
      if_true, if_false] at h
  · -- the record already lists jId: the state passed on is s itself
    split at h
    · split at h
      · split at h
        · refine buildEvolves_trans ?_ (hb _ _ _ h)
          exact ⟨fun _ hi => hi, fun _ => ⟨rfl, rfl⟩, ⟨[], by simp⟩⟩
        · exact absurd h (by simp)
      · exact Except.ok.inj h ▸ buildEvolves_refl s
    · exact absurd h (by simp)
  · -- jId is inserted into the record's predecessorsFinished
    split at h
    · split at h
      · split at h
        · refine buildEvolves_trans ?_ (hb _ _ _ h)
          refine ⟨fun _ hi => hi, fun j => ?_, ⟨[], by simp⟩⟩
          by_cases hj : j = sid <;> simp [setJob, hj]
        · exact absurd h (by simp)
      · refine Except.ok.inj h ▸ ⟨fun _ hi => hi, fun j => ?_, ⟨[], by simp⟩⟩
        by_cases hj : j = sid <;> simp [setJob, hj]
    · exact absurd h (by simp)

theorem buildEvolves_succs_of (n : Nat)
    (hb : ∀ jId s s', buildToilState n jId s = .ok s' → BuildEvolves s s') :
    ∀ ts jId s s', buildToilStateSuccessors n jId ts s = .ok s' → BuildEvolves s s' := by
  intro ts
  induction ts with
  | nil =>
    intro jId s s' h
    simp only [buildToilStateSuccessors] at h
    exact Except.ok.inj h ▸ buildEvolves_refl s
  | cons t ts' ih =>
    intro jId s s' h
    simp only [buildToilStateSuccessors] at h
    split at h
    · -- first visit
      split at h
      · -- join node
        split at h
        · exact absurd h (by simp)
        · split at h
          · exact absurd h (by simp)
          · rename_i s4 heq
            refine buildEvolves_trans ?_
              (buildEvolves_trans (buildEvolves_join_of n hb _ _ _ _ heq) (ih _ _ _ h))
            exact ⟨fun i hi => lookupA_isSome_setA _ _ _ i hi, fun j => ⟨rfl, rfl⟩,
              ⟨[.load t.succID], rfl, by simp⟩⟩
      · -- single predecessor
        split at h
        · exact absurd h (by simp)
        · rename_i s3 heq
          refine buildEvolves_trans ?_
            (buildEvolves_trans (hb _ _ _ heq) (ih _ _ _ h))
          exact ⟨fun i hi => lookupA_isSome_setA _ _ _ i hi, fun j => ⟨rfl, rfl⟩,
            ⟨[.load t.succID], rfl, by simp⟩⟩
    · -- already seen
      split at h
      · exact absurd h (by simp)
      · split at h
        · split at h
          · exact absurd h (by simp)
          · rename_i s2 heq
            refine buildEvolves_trans ?_
              (buildEvolves_trans (buildEvolves_join_of n hb _ _ _ _ heq) (ih _ _ _ h))
            exact ⟨fun i hi => lookupA_isSome_setA _ _ _ i hi, fun j => ⟨rfl, rfl⟩,
              ⟨[], by simp⟩⟩
        · refine buildEvolves_trans ?_ (ih _ _ _ h)
          exact ⟨fun i hi => lookupA_isSome_setA _ _ _ i hi, fun j => ⟨rfl, rfl⟩,
            ⟨[], by simp⟩⟩

theorem buildEvolves_build :
    ∀ fuel jId s s', buildToilState fuel jId s = .ok s' → BuildEvolves s s' := by
  intro fuel
  induction fuel with
  | zero => intro jId s s' h; simp [buildToilState] at h
  | succ n ih =>
    intro jId s s' h
    simp only [buildToilState] at h
    split at h
    · -- directly runnable
      by_cases hcp : (s.heap jId).checkpoint.isSome
      all_goals simp only [hcp, if_true, if_false, Bool.false_eq_true] at h
      · refine Except.ok.inj h ▸ ⟨fun _ hi => hi, fun j => ?_, ⟨[], by simp⟩⟩
        by_cases hj : j = jId <;> simp [setJob, hj]
      · exact Except.ok.inj h ▸ ⟨fun _ hi => hi, fun _ => ⟨rfl, rfl⟩, ⟨[], by simp⟩⟩
    · refine buildEvolves_trans ?_ (buildEvolves_succs_of n ih _ _ _ _ h)
      exact ⟨fun _ hi => hi, fun _ => ⟨rfl, rfl⟩, ⟨[], by simp⟩⟩

theorem buildEvolves_succs (fuel : Nat) :
    ∀ ts jId s s', buildToilStateSuccessors fuel jId ts s = .ok s' → BuildEvolves s s' :=
  buildEvolves_succs_of fuel (buildEvolves_build fuel)

theorem buildEvolves_join (fuel : Nat) :
    ∀ jId sid s s', processSuccessorWithMultiplePredecessors fuel jId sid s = .ok s' →
      BuildEvolves s s' :=
  buildEvolves_join_of fuel (buildEvolves_build fuel)

theorem applyStoreOps_loads : ∀ (ops : List StoreOp) (st : JobStoreState),
    (∀ op ∈ ops, ∃ i, op = StoreOp.load i) → applyStoreOps st ops = st := by
  intro ops
  induction ops with
  | nil => intro st _; rfl
  | cons op ops' ih =>
    intro st h
    obtain ⟨i, hi⟩ := h op (List.mem_cons_self _ _)
    subst hi
    simpa [applyStoreOps, applyStoreOp] using
      ih st (fun o ho => h o (List.mem_cons_of_mem _ ho))

theorem buildSuccessors_covers (fuel : Nat) :
    ∀ ts jId s s', buildToilStateSuccessors fuel jId ts s = .ok s' →
      ∀ t ∈ ts, (lookupA s'.successorJobStoreIDToPredecessorJobs t.succID).isSome = true := by
  intro ts
  induction ts with
  | nil => intro jId s s' h t ht; simp at ht
  | cons t0 ts' ih =>
    intro jId s s' h t ht
    simp only [buildToilStateSuccessors] at h
    split at h
    · split at h
      · split at h
        · exact absurd h (by simp)
        · split at h
          · exact absurd h (by simp)
          · rename_i s4 heq
            rcases List.mem_cons.mp ht with rfl | hmem
            · refine (buildEvolves_succs fuel ts' _ _ _ h).1 _ ?_
              refine (buildEvolves_join fuel _ _ _ _ heq).1 _ ?_
              simp [lookupA_setA_self]
            · exact ih _ _ _ h t hmem
      · split at h
        · exact absurd h (by simp)
        · rename_i s3 heq
          rcases List.mem_cons.mp ht with rfl | hmem
          · refine (buildEvolves_succs fuel ts' _ _ _ h).1 _ ?_
            refine (buildEvolves_build fuel _ _ _ heq).1 _ ?_
            simp [lookupA_setA_self]
          · exact ih _ _ _ h t hmem
    · split at h
      · exact absurd h (by simp)
      · split at h
        · split at h
          · exact absurd h (by simp)
          · rename_i s2 heq
            rcases List.mem_cons.mp ht with rfl | hmem
            · refine (buildEvolves_succs fuel ts' _ _ _ h).1 _ ?_
              refine (buildEvolves_join fuel _ _ _ _ heq).1 _ ?_
              simp [lookupA_setA_self]
            · exact ih _ _ _ h t hmem
        · rcases List.mem_cons.mp ht with rfl | hmem
          · refine (buildEvolves_succs fuel ts' _ _ _ h).1 _ ?_
            simp [lookupA_setA_self]
          · exact ih _ _ _ h t hmem

/-- `s` with `successorCounts[jId] := c`, the update the internal-node
branch of `_buildToilState` performs before walking the top group. -/
def withCount (jId : JobID) (c : Int) (s : TState) : TState :=
  { s with successorCounts := setA s.successorCounts jId c }

/-- The state the directly-runnable branch of `_buildToilState` leaves
behind: `(J, 0)` joins `updatedJobs`, the command is restored from the
checkpoint when there is one, and nothing else changes. -/
def runnableVisitState (jId : JobID) (s : TState) : TState :=
  let jw := s.heap jId
  let h' :=
    if jw.checkpoint.isSome then setJob s.heap jId { jw with command := jw.checkpoint }
    else s.heap
  { s with heap := h', updatedJobs := insert (jId, (0 : Int)) s.updatedJobs }

/-- Claim C2: a job visited by ToilState reconstruction with a command, a
checkpoint, services, or an empty stack is added to `updatedJobs` as
`(J, 0)` with its command restored from its checkpoint, and no successor is
visited from it (the rest of the state is untouched); otherwise
`successorCounts[J.id]` is set to the size of the top stack group and the
successors of that group are processed (each ends up registered in
`successorJobStoreIDToPredecessorJobs`). -/
theorem C2_buildToilState_visit :
    ∀ (fuel : Nat) (jId : JobID) (s : TState),
      (directlyRunnable (s.heap jId) = true →
        buildToilState (fuel + 1) jId s = .ok (runnableVisitState jId s)) ∧
      (directlyRunnable (s.heap jId) = false →
        buildToilState (fuel + 1) jId s =
          buildToilStateSuccessors fuel jId ((s.heap jId).stack.getLastD [])
            (withCount jId (((s.heap jId).stack.getLastD []).length : Int) s) ∧
        ResultOK (buildToilState (fuel + 1) jId s) fun s' =>
          ∀ t ∈ (s.heap jId).stack.getLastD [],
            (lookupA s'.successorJobStoreIDToPredecessorJobs t.succID).isSome = true) := by
  intro fuel jId s
  constructor
  · intro hrun
    by_cases hcp : (s.heap jId).checkpoint.isSome
    · simp [buildToilState, hrun, hcp, runnableVisitState]
    · simp [buildToilState, hrun, hcp, runnableVisitState]
  · intro hrun
    have heq : buildToilState (fuel + 1) jId s =
        buildToilStateSuccessors fuel jId ((s.heap jId).stack.getLastD [])
          (withCount jId (((s.heap jId).stack.getLastD []).length : Int) s) := by
      simp [buildToilState, hrun, withCount]
    refine ⟨heq, ?_⟩
    rw [heq]
    cases hres : buildToilStateSuccessors fuel jId ((s.heap jId).stack.getLastD [])
        (withCount jId (((s.heap jId).stack.getLastD []).length : Int) s) with
    | error e => exact resultOK_error
    | ok s' => exact resultOK_ok (buildSuccessors_covers fuel _ _ _ _ hres)

/-- Claim C10: ToilState reconstruction performs only `load` operations on
the job store, so the persistent store contents after reconstruction equal
the contents before — the in-memory `command := checkpoint` assignment is
not persisted. -/
theorem C10_reconstruction_store_frame :
    ∀ (fuel : Nat) (root : JobID) (heap : JobID → JobRecord),
      ResultOK (buildToilState fuel root (initTState heap)) fun s' =>
        (∀ op ∈ s'.opLog, ∃ i, op = StoreOp.load i) ∧
        ∀ st : JobStoreState, applyStoreOps st s'.opLog = st := by
  intro fuel root heap
  cases hres : buildToilState fuel root (initTState heap) with
  | error e => exact resultOK_error
  | ok s' =>
    obtain ⟨-, -, ops, hops, hloads⟩ := buildEvolves_build fuel root _ s' hres
    have hlog : s'.opLog = ops := by simpa [initTState] using hops
    refine resultOK_ok ⟨?_, ?_⟩
    · intro op hop
      exact hloads op (hlog ▸ hop)
    · intro st
      exact applyStoreOps_loads s'.opLog st (fun op hop => hloads op (hlog ▸ hop))

/-- Well-formedness of the job graph in the heap: every stack edge to a
join node (a record with `predecessorNumber ≥ 2`) carries its non-null
`predecessorID` marker, which is what routes it through
`processSuccessorWithMultiplePredecessors`. -/
def JoinsMarkedH (heap : JobID → JobRecord) : Prop :=
  ∀ j t, (∃ g ∈ (heap j).stack, t ∈ g) →
    2 ≤ (heap t.succID).predecessorNumber → t.predecessorID.isSome = true

/-- The join-release invariant: every join node in `updatedJobs` has all of
its `predecessorNumber` predecessors recorded in `predecessorsFinished`. -/
def JoinInv (s : TState) : Prop :=
  ∀ j r, (j, r) ∈ s.updatedJobs → 2 ≤ (s.heap j).predecessorNumber →
    (s.heap j).predecessorsFinished.card = (s.heap j).predecessorNumber

theorem joinsMarkedH_transport {h1 h2 : JobID → JobRecord}
    (he : ∀ j, (h2 j).stack = (h1 j).stack ∧
      (h2 j).predecessorNumber = (h1 j).predecessorNumber)
    (h : JoinsMarkedH h1) : JoinsMarkedH h2 := by
  intro j t ht hp
  refine h j t ?_ ?_
  · rcases ht with ⟨g, hg, htg⟩
    exact ⟨g, (he j).1 ▸ hg, htg⟩
  · exact (he t.succID).2 ▸ hp

theorem setJob_self (h : JobID → JobRecord) (i : JobID) (r : JobRecord) :
    setJob h i r i = r := by simp [setJob]

theorem setJob_ne (h : JobID → JobRecord) (i : JobID) (r : JobRecord) {j : JobID}
    (hj : j ≠ i) : setJob h i r j = h j := by simp [setJob, hj]

theorem joinInv_join_of (n : Nat)
    (hb : ∀ jId s s', JoinsMarkedH s.heap → JoinInv s →
      (2 ≤ (s.heap jId).predecessorNumber →
        (s.heap jId).predecessorsFinished.card = (s.heap jId).predecessorNumber) →
      buildToilState n jId s = .ok s' → JoinInv s') :
    ∀ jId sid s s', JoinsMarkedH s.heap → JoinInv s →
      processSuccessorWithMultiplePredecessors n jId sid s = .ok s' → JoinInv s' := by
  intro jId sid s s' hm hinv h
  by_cases hmem : jId ∈ (s.heap sid).predecessorsFinished
  · simp only [processSuccessorWithMultiplePredecessors, hmem, if_true, if_pos] at h
    split at h
    · split at h
      · rename_i hle heqc
        split at h
        · refine hb sid _ s' ?_ ?_ ?_ h
          · exact hm
          · exact hinv
          · exact fun _ => heqc
        · exact absurd h (by simp)
      · exact Except.ok.inj h ▸ hinv
    · exact absurd h (by simp)
  · simp only [processSuccessorWithMultiplePredecessors, hmem, if_false,
      Bool.false_eq_true, if_neg, not_false_iff] at h
    have hcard : (insert jId (s.heap sid).predecessorsFinished).card
        = (s.heap sid).predecessorsFinished.card + 1 :=
      Finset.card_insert_of_not_mem hmem
    split at h
    · split at h
      · rename_i hle heqc
        simp only [setJob_self] at hle heqc
        split at h
        · refine hb sid _ s' ?_ ?_ ?_ h
          · refine joinsMarkedH_transport (fun j => ?_) hm
            by_cases hj : j = sid
            · subst hj; simp [setJob_self]
            · simp [setJob_ne _ _ _ hj]
          · intro j r hjr hge
            by_cases hj : j = sid
            · subst hj
              simp only [setJob_self] at hge ⊢
              exact heqc
            · simp only [setJob_ne _ _ _ hj] at hge ⊢
              exact hinv j r hjr hge
          · intro hge
            simp only [setJob_self] at hge ⊢
            exact heqc
        · exact absurd h (by simp)
      · rename_i hle hne
        simp only [setJob_self] at hle hne
        obtain rfl := Except.ok.inj h
        intro j r hjr hge
        by_cases hj : j = sid
        · subst hj
          exfalso
          have hold := hinv j r hjr (by simpa [setJob_self] using hge)
          rw [hcard, hold] at hle hne
          omega
        · simp only [setJob_ne _ _ _ hj] at hge ⊢
          exact hinv j r hjr hge
    · exact absurd h (by simp)

theorem joinsMarkedH_evolve {s s' : TState} (he : BuildEvolves s s')
    (hm : JoinsMarkedH s.heap) : JoinsMarkedH s'.heap :=
  joinsMarkedH_transport he.2.1 hm

theorem stackWitness_evolve {s s' : TState} (he : BuildEvolves s s') {ts : List SuccTuple}
    (hts : ∀ t ∈ ts, ∃ j, ∃ g ∈ (s.heap j).stack, t ∈ g) :
    ∀ t ∈ ts, ∃ j, ∃ g ∈ (s'.heap j).stack, t ∈ g := by
  intro t ht
  obtain ⟨j, g, hg, htg⟩ := hts t ht
  exact ⟨j, g, ((he.2.1 j).1).symm ▸ hg, htg⟩

theorem joinInv_succs_of (n : Nat)
    (hb : ∀ jId s s', JoinsMarkedH s.heap → JoinInv s →
      (2 ≤ (s.heap jId).predecessorNumber →
        (s.heap jId).predecessorsFinished.card = (s.heap jId).predecessorNumber) →
      buildToilState n jId s = .ok s' → JoinInv s') :
    ∀ ts jId s s', JoinsMarkedH s.heap → JoinInv s →
      (∀ t ∈ ts, ∃ j, ∃ g ∈ (s.heap j).stack, t ∈ g) →
      buildToilStateSuccessors n jId ts s = .ok s' → JoinInv s' := by
  intro ts
  induction ts with
  | nil =>
    intro jId s s' _ hinv _ h
    simp only [buildToilStateSuccessors] at h
    exact Except.ok.inj h ▸ hinv
  | cons t ts' ih =>
    intro jId s s' hm hinv hts h
    simp only [buildToilStateSuccessors] at h
    split at h
    · split at h
      · -- join node, first visit
        split at h
        · exact absurd h (by simp)
        · split at h
          · exact absurd h (by simp)
          · rename_i s4 heq
            have hinv4 : JoinInv s4 := by
              refine joinInv_join_of n hb jId t.succID _ s4 ?_ ?_ heq
              · exact hm
              · exact hinv
            have hev : BuildEvolves _ s4 := buildEvolves_join n jId t.succID _ s4 heq
            refine ih jId _ s' (joinsMarkedH_evolve hev hm) hinv4 ?_ h
            exact stackWitness_evolve hev (fun u hu => hts u (List.mem_cons_of_mem t hu))
      · -- single predecessor, first visit
        rename_i heqp
        split at h
        · exact absurd h (by simp)
        · rename_i s3 heq
          have hgood : 2 ≤ (s.heap t.succID).predecessorNumber →
              (s.heap t.succID).predecessorsFinished.card
                = (s.heap t.succID).predecessorNumber := by
            intro h2
            obtain ⟨j, hg⟩ := hts t (List.mem_cons_self t ts')
            have := hm j t hg h2
            simp [heqp] at this
          have hinv3 : JoinInv s3 := by
            refine hb t.succID _ s3 ?_ ?_ ?_ heq
            · exact hm
            · exact hinv
            · exact hgood
          have hev : BuildEvolves _ s3 := buildEvolves_build n t.succID _ s3 heq
          refine ih jId _ s' (joinsMarkedH_evolve hev hm) hinv3 ?_ h
          exact stackWitness_evolve hev (fun u hu => hts u (List.mem_cons_of_mem t hu))
    · split at h
      · exact absurd h (by simp)
      · split at h
        · -- join node, already seen and still cached
          split at h
          · exact absurd h (by simp)
          · rename_i s2 heq
            have hinv2 : JoinInv s2 := by
              refine joinInv_join_of n hb jId t.succID _ s2 ?_ ?_ heq
              · exact hm
              · exact hinv
            have hev : BuildEvolves _ s2 := buildEvolves_join n jId t.succID _ s2 heq
            refine ih jId _ s' (joinsMarkedH_evolve hev hm) hinv2 ?_ h
            exact stackWitness_evolve hev (fun u hu => hts u (List.mem_cons_of_mem t hu))
        · -- already seen, not cached: only the predecessor list changes
          refine ih jId _ s' ?_ ?_ ?_ h
          · exact hm
          · exact hinv
          · exact fun u hu => hts u (List.mem_cons_of_mem t hu)

theorem joinInv_build :
    ∀ fuel jId s s', JoinsMarkedH s.heap → JoinInv s →
      (2 ≤ (s.heap jId).predecessorNumber →
        (s.heap jId).predecessorsFinished.card = (s.heap jId).predecessorNumber) →
      buildToilState fuel jId s = .ok s' → JoinInv s' := by
  intro fuel
  induction fuel with
  | zero =>
    intro jId s s' _ _ _ h
    simp [buildToilState] at h
  | succ n ih =>
    intro jId s s' hm hinv hroot h
    simp only [buildToilState] at h
    split at h
    · by_cases hcp : (s.heap jId).checkpoint.isSome
      all_goals simp only [hcp, if_true, if_false, Bool.false_eq_true] at h
      · obtain rfl := Except.ok.inj h
        intro j r hjr hge
        simp only [Finset.mem_insert, Prod.mk.injEq] at hjr
        rcases hjr with ⟨rfl, rfl⟩ | hjr
        · simp only [setJob_self] at hge ⊢
          exact hroot hge
        · by_cases hj : j = jId
          · subst hj
            simp only [setJob_self] at hge ⊢
            exact hinv j r hjr hge
          · simp only [setJob_ne _ _ _ hj] at hge ⊢
            exact hinv j r hjr hge
      · obtain rfl := Except.ok.inj h
        intro j r hjr hge
        simp only [Finset.mem_insert, Prod.mk.injEq] at hjr
        rcases hjr with ⟨rfl, rfl⟩ | hjr
        · exact hroot hge
        · exact hinv j r hjr hge
    · refine joinInv_succs_of n ih ((s.heap jId).stack.getLastD []) jId _ s' ?_ ?_ ?_ h
      · exact hm
      · exact hinv
      · intro t ht
        exact ⟨jId, mem_getLastD ht⟩

theorem joinReadyCheck_ok {t : SuccTuple} {s s' : TState} {opt : Option IssuedSucc}
    (h : joinReadyCheck t s = .ok (s', opt)) :
    s'.heap = s.heap ∧
    s'.successorJobStoreIDToPredecessorJobs = s.successorJobStoreIDToPredecessorJobs ∧
    s'.successorCounts = s.successorCounts ∧
    s'.updatedJobs = s.updatedJobs ∧
    (∀ x, opt = some x →
      x = (t.succID, t.memory, t.cores, t.disk, t.preemptable) ∧
      (s.heap t.succID).predecessorsFinished.card
        = (s.heap t.succID).predecessorNumber) := by
  simp only [joinReadyCheck] at h
  split at h
  · split at h
    · obtain ⟨rfl, rfl⟩ := Prod.mk.injEq .. ▸ Except.ok.inj h
      exact ⟨rfl, rfl, rfl, rfl, fun x hx => by simp at hx⟩
    · rename_i hle hlt
      split at h
      · obtain ⟨rfl, rfl⟩ := Prod.mk.injEq .. ▸ Except.ok.inj h
        refine ⟨rfl, rfl, rfl, rfl, fun x hx => ?_⟩
        obtain rfl := Option.some.inj hx
        exact ⟨rfl, le_antisymm hle (by omega)⟩
      · exact absurd h (by simp)
  · exact absurd h (by simp)


theorem scheduleSuccessorStep_char {jId : JobID} {t : SuccTuple} {s s2 : TState}
    {opt : Option IssuedSucc} (h : scheduleSuccessorStep jId t s = .ok (s2, opt)) :
    (∀ i, i ≠ t.succID → s2.heap i = s.heap i) ∧
    (∀ x, opt = some x → x.1 = t.succID) ∧
    (∀ x p, t.predecessorID = some p → opt = some x →
      (s2.heap t.succID).predecessorsFinished.card
        = (s2.heap t.succID).predecessorNumber) := by
  simp only [scheduleSuccessorStep] at h
  split at h
  · -- predecessorID = none: schedules unconditionally
    rename_i heqp
    obtain ⟨rfl, rfl⟩ := Prod.mk.injEq .. ▸ Except.ok.inj h
    refine ⟨fun i hi => rfl, fun x hx => by obtain rfl := Option.some.inj hx; rfl,
      fun x p hp hx => by simp [heqp] at hp⟩
  · -- predecessorID = some p
    rename_i p heqp
    split at h
    all_goals split at h
    case' isTrue.isTrue | isFalse.isTrue =>
      -- the successor is in failedSuccessors
      split at h
      · exact absurd h (by simp)
      · rename_i c hc
        split at h
        · exact absurd h (by simp)
        · split at h
          · exact absurd h (by simp)
          · rename_i l2 hl2
            split at h
            · split at h
              · -- count hit zero: continue
                obtain ⟨rfl, rfl⟩ := Prod.mk.injEq .. ▸ Except.ok.inj h
                refine ⟨fun i hi => by simp [setJob_ne _ _ _ hi],
                  fun x hx => by simp at hx, fun x p' hp' hx => by simp at hx⟩
              · -- join readiness check
                have hjrc := joinReadyCheck_ok h
                refine ⟨fun i hi => ?_, fun x hx => ?_, fun x p' hp' hx => ?_⟩
                · rw [hjrc.1]; simp [setJob_ne _ _ _ hi]
                · obtain rfl := (hjrc.2.2.2.2 x hx).1; rfl
                · rw [hjrc.1]; exact (hjrc.2.2.2.2 x hx).2
            · exact absurd h (by simp)
    case' isTrue.isFalse | isFalse.isFalse =>
      -- not a failed successor: join readiness check directly
      have hjrc := joinReadyCheck_ok h
      refine ⟨fun i hi => ?_, fun x hx => ?_, fun x p' hp' hx => ?_⟩
      · rw [hjrc.1]; simp [setJob_ne _ _ _ hi]
      · obtain rfl := (hjrc.2.2.2.2 x hx).1; rfl
      · rw [hjrc.1]; exact (hjrc.2.2.2.2 x hx).2

theorem schedLoop_heap_frame (jId : JobID) :
    ∀ ts s acc s' res, scheduleSuccessorsLoop jId ts s acc = .ok (s', res) →
      ∀ i, i ∉ ts.map SuccTuple.succID → s'.heap i = s.heap i := by
  intro ts
  induction ts with
  | nil =>
    intro s acc s' res h i _
    simp only [scheduleSuccessorsLoop] at h
    obtain ⟨rfl, rfl⟩ := Prod.mk.injEq .. ▸ Except.ok.inj h
    rfl
  | cons t ts' ih =>
    intro s acc s' res h i hi
    simp only [List.map_cons, List.mem_cons] at hi
    push_neg at hi
    simp only [scheduleSuccessorsLoop] at h
    split at h
    · exact absurd h (by simp)
    · rename_i s2 heq
      rw [ih _ _ _ _ h i hi.2]
      exact (scheduleSuccessorStep_char heq).1 i hi.1
    · rename_i s2 x heq
      rw [ih _ _ _ _ h i hi.2]
      exact (scheduleSuccessorStep_char heq).1 i hi.1

theorem schedLoop_res_shape (jId : JobID) :
    ∀ ts s acc s' res, scheduleSuccessorsLoop jId ts s acc = .ok (s', res) →
      ∃ ds, res = acc ++ ds ∧ ∀ x ∈ ds, x.1 ∈ ts.map SuccTuple.succID := by
  intro ts
  induction ts with
  | nil =>
    intro s acc s' res h
    simp only [scheduleSuccessorsLoop] at h
    obtain ⟨rfl, rfl⟩ := Prod.mk.injEq .. ▸ Except.ok.inj h
    exact ⟨[], by simp⟩
  | cons t ts' ih =>
    intro s acc s' res h
    simp only [scheduleSuccessorsLoop] at h
    split at h
    · exact absurd h (by simp)
    · rename_i s2 heq
      obtain ⟨ds, rfl, hds⟩ := ih _ _ _ _ h
      exact ⟨ds, rfl, fun x hx => List.mem_cons_of_mem _ (hds x hx)⟩
    · rename_i s2 x0 heq
      obtain ⟨ds, rfl, hds⟩ := ih _ _ _ _ h
      refine ⟨x0 :: ds, by simp, fun x hx => ?_⟩
      rcases List.mem_cons.mp hx with rfl | hx
      · have hx1 := (scheduleSuccessorStep_char heq).2.1 x rfl
        simp [hx1]
      · exact List.mem_cons_of_mem _ (hds x hx)

theorem schedLoop_join_release (jId : JobID) :
    ∀ ts s acc s' res, (ts.map SuccTuple.succID).Nodup →
      (∀ x ∈ acc, x.1 ∉ ts.map SuccTuple.succID) →
      scheduleSuccessorsLoop jId ts s acc = .ok (s', res) →
      ∀ t ∈ ts, t.predecessorID.isSome = true →
        (∃ x ∈ res, x.1 = t.succID) →
        (s'.heap t.succID).predecessorsFinished.card
          = (s'.heap t.succID).predecessorNumber := by
  intro ts
  induction ts with
  | nil =>
    intro s acc s' res _ _ h t ht
    simp at ht
  | cons t0 ts' ih =>
    intro s acc s' res hnd hacc h t ht hps hex
    have hnd0 : t0.succID ∉ ts'.map SuccTuple.succID := (List.nodup_cons.mp hnd).1
    have hnd' : (ts'.map SuccTuple.succID).Nodup := (List.nodup_cons.mp hnd).2
    simp only [scheduleSuccessorsLoop] at h
    split at h
    · exact absurd h (by simp)
    · -- the step ended in continue
      rename_i s2 heq
      rcases List.mem_cons.mp ht with rfl | hmem
      · -- t was not scheduled, so nothing in res carries its ID
        exfalso
        obtain ⟨x, hxres, hxid⟩ := hex
        obtain ⟨ds, rfl, hds⟩ := schedLoop_res_shape jId _ _ _ _ _ h
        rcases List.mem_append.mp hxres with hx | hx
        · exact hacc x hx (by simp [hxid])
        · exact hnd0 (hxid ▸ hds x hx)
      · refine ih _ _ _ _ hnd' ?_ h t hmem hps hex
        exact fun x hx => fun hmm => hacc x hx (List.mem_cons_of_mem _ hmm)
    · -- the step scheduled its successor
      rename_i s2 x0 heq
      rcases List.mem_cons.mp ht with rfl | hmem
      · obtain ⟨p, hp⟩ := Option.isSome_iff_exists.mp hps
        have hcard := (scheduleSuccessorStep_char heq).2.2 x0 p hp rfl
        rw [schedLoop_heap_frame jId _ _ _ _ _ h t.succID hnd0]
        exact hcard
      · have hx0id : x0.1 = t0.succID := (scheduleSuccessorStep_char heq).2.1 x0 rfl
        refine ih _ _ _ _ hnd' ?_ h t hmem hps hex
        intro x hx
        rcases List.mem_append.mp hx with hx1 | hx1
        · exact fun hmm => hacc x hx1 (List.mem_cons_of_mem _ hmm)
        · have hxx : x = x0 := by simpa using hx1
          rw [hxx, hx0id]
          exact hnd0

/-- Claim C1: a join node `S` with `predecessorNumber = k` is never released
before exactly `k` distinct predecessor IDs are present in
`S.predecessorsFinished`.  Part one: ToilState reconstruction from a fresh
state only ever places a join node in `updatedJobs` with
`predecessorsFinished.card = predecessorNumber` (given the DAG marks join
edges with a non-null predecessorID and the root satisfies the invariant).
Part two: the successor-scheduling loop of `Leader.innerLoop` includes a
join successor in the list it issues only when its `predecessorsFinished`
count equals its `predecessorNumber`. -/
theorem C1_join_release :
    (∀ (fuel : Nat) (root : JobID) (heap : JobID → JobRecord),
      JoinsMarkedH heap →
      (2 ≤ (heap root).predecessorNumber →
        (heap root).predecessorsFinished.card = (heap root).predecessorNumber) →
      ResultOK (buildToilState fuel root (initTState heap)) JoinInv) ∧
    (∀ (jId : JobID) (s : TState),
      (((s.heap jId).stack.getLastD []).map SuccTuple.succID).Nodup →
      ResultOK (scheduleSuccessors jId s) fun out =>
        ∀ t ∈ (s.heap jId).stack.getLastD [], t.predecessorID.isSome = true →
          (∃ x ∈ out.2, x.1 = t.succID) →
          (out.1.heap t.succID).predecessorsFinished.card
            = (out.1.heap t.succID).predecessorNumber) := by
  constructor
  · intro fuel root heap hm hroot
    cases hres : buildToilState fuel root (initTState heap) with
    | error e => exact resultOK_error
    | ok s' =>
      refine resultOK_ok ?_
      refine joinInv_build fuel root (initTState heap) s' ?_ ?_ ?_ hres
      · exact hm
      · intro j r hjr _
        simp [initTState] at hjr
      · exact hroot
  · intro jId s hnd
    cases hres : scheduleSuccessors jId s with
    | error e => exact resultOK_error
    | ok out =>
      obtain ⟨s', res⟩ := out
      refine resultOK_ok ?_
      simp only [scheduleSuccessors] at hres
      split at hres
      · exact absurd hres (by simp)
      · split at hres
        · exact absurd hres (by simp)
        · intro t ht hps hex
          exact schedLoop_join_release jId _ _ _ _ _ hnd (by simp) hres t ht hps hex

theorem resultOK_of_ok {ε α : Type} {r : Except ε α} {P : α → Prop}
    (h : ∀ a, r = .ok a → P a) : ResultOK r P := by
  cases r with
  | error e => trivial
  | ok a => exact h a rfl

theorem mem_keys_setA {α : Type} (m : List (JobID × α)) (k : JobID) (v : α) (x : JobID)
    (hx : x ∈ (setA m k v).map Prod.fst) : x ∈ m.map Prod.fst ∨ x = k := by
  induction m with
  | nil => simpa [setA] using hx
  | cons p ps ih =>
    by_cases hp : p.1 = k
    · simp only [setA, if_pos hp, List.map_cons, List.mem_cons] at hx
      rcases hx with rfl | hx
      · exact Or.inr rfl
      · exact Or.inl (List.mem_cons_of_mem _ hx)
    · simp only [setA, if_neg hp, List.map_cons, List.mem_cons] at hx ⊢
      rcases hx with rfl | hx
      · exact Or.inl (Or.inl rfl)
      · rcases ih hx with hh | hh
        · exact Or.inl (Or.inr hh)
        · exact Or.inr hh

theorem keysNodup_setA {α : Type} (m : List (JobID × α)) (k : JobID) (v : α)
    (h : (m.map Prod.fst).Nodup) : ((setA m k v).map Prod.fst).Nodup := by
  induction m with
  | nil => simp [setA]
  | cons p ps ih =>
    simp only [List.map_cons, List.nodup_cons] at h
    by_cases hp : p.1 = k
    · simp only [setA, if_pos hp, List.map_cons, List.nodup_cons]
      exact ⟨hp ▸ h.1, h.2⟩
    · simp only [setA, if_neg hp, List.map_cons, List.nodup_cons]
      refine ⟨fun hmm => ?_, ih h.2⟩
      rcases mem_keys_setA ps k v p.1 hmm with hh | hh
      · exact h.1 hh
      · exact hp hh

theorem mem_keys_eraseA {α : Type} (m : List (JobID × α)) (k : JobID) (x : JobID)
    (hx : x ∈ (eraseA m k).map Prod.fst) : x ∈ m.map Prod.fst := by
  induction m with
  | nil => simp [eraseA] at hx
  | cons p ps ih =>
    by_cases hp : p.1 = k
    · simp only [eraseA, if_pos hp] at hx
      exact List.mem_cons_of_mem _ hx
    · simp only [eraseA, if_neg hp, List.map_cons, List.mem_cons] at hx ⊢
      rcases hx with rfl | hx
      · exact Or.inl rfl
      · exact Or.inr (ih hx)

theorem keysNodup_eraseA {α : Type} (m : List (JobID × α)) (k : JobID)
    (h : (m.map Prod.fst).Nodup) : ((eraseA m k).map Prod.fst).Nodup := by
  induction m with
  | nil => simp [eraseA]
  | cons p ps ih =>
    simp only [List.map_cons, List.nodup_cons] at h
    by_cases hp : p.1 = k
    · simp only [eraseA, if_pos hp]
      exact h.2
    · simp only [eraseA, if_neg hp, List.map_cons, List.nodup_cons]
      exact ⟨fun hmm => h.1 (mem_keys_eraseA ps k p.1 hmm), ih h.2⟩

theorem updatePredecessorStep_char {pId : JobID} {s s' : TState} {c : Int}
    (hc : lookupA s.successorCounts pId = some c)
    (hkeys : (s.successorCounts.map Prod.fst).Nodup)
    (h : updatePredecessorStep pId s = .ok s') :
    s'.successorJobStoreIDToPredecessorJobs = s.successorJobStoreIDToPredecessorJobs ∧
    s'.serviceJobStoreIDToPredecessorJob = s.serviceJobStoreIDToPredecessorJob ∧
    (s'.successorCounts.map Prod.fst).Nodup ∧
    (∀ q, q ≠ pId → lookupA s'.successorCounts q = lookupA s.successorCounts q) ∧
    (∀ q, q ≠ pId → s'.heap q = s.heap q) ∧
    (∀ e ∈ s.updatedJobs, e ∈ s'.updatedJobs) ∧
    (c = 1 → lookupA s'.successorCounts pId = none ∧
      (s'.heap pId).stack = (s.heap pId).stack.dropLast ∧
      (pId, (0 : Int)) ∈ s'.updatedJobs) ∧
    (c ≠ 1 → lookupA s'.successorCounts pId = some (c - 1) ∧ s'.heap pId = s.heap pId ∧
      s'.updatedJobs = s.updatedJobs) := by
  simp only [updatePredecessorStep, hc] at h
  have hkeys1 : ((setA s.successorCounts pId (c - 1)).map Prod.fst).Nodup :=
    keysNodup_setA _ _ _ hkeys
  split at h
  · rename_i hzero
    have hc1 : c = 1 := by omega
    split at h
    · exact absurd h (by simp)
    · rename_i hstack
      obtain rfl := Except.ok.inj h
      refine ⟨rfl, rfl, ?_, ?_, ?_, ?_, ?_, ?_⟩
      · exact keysNodup_eraseA _ _ hkeys1
      · intro q hq
        rw [lookupA_eraseA_ne _ hq, lookupA_setA_ne _ hq]
      · intro q hq
        simp [setJob_ne _ _ _ hq]
      · intro e he
        exact Finset.mem_insert_of_mem he
      · intro _
        refine ⟨lookupA_eraseA_self _ _ hkeys1, ?_, Finset.mem_insert_self _ _⟩
        simp [setJob_self]
      · intro hne
        exact absurd hc1 hne
  · rename_i hzero
    have hc1 : c ≠ 1 := by omega
    obtain rfl := Except.ok.inj h
    refine ⟨rfl, rfl, hkeys1, ?_, fun q _ => rfl, fun e he => he, ?_, ?_⟩
    · intro q hq
      rw [lookupA_setA_ne _ hq]
    · intro hh
      exact absurd hh hc1
    · intro _
      exact ⟨lookupA_setA_self _ _ _, rfl, rfl⟩

theorem updatePredecessorsList_char :
    ∀ (l : List JobID) (s s' : TState), l.Nodup →
      (s.successorCounts.map Prod.fst).Nodup →
      updatePredecessorsList l s = .ok s' →
      s'.successorJobStoreIDToPredecessorJobs = s.successorJobStoreIDToPredecessorJobs ∧
      s'.serviceJobStoreIDToPredecessorJob = s.serviceJobStoreIDToPredecessorJob ∧
      (∀ q, q ∉ l → lookupA s'.successorCounts q = lookupA s.successorCounts q ∧
        s'.heap q = s.heap q) ∧
      (∀ e ∈ s.updatedJobs, e ∈ s'.updatedJobs) ∧
      ∀ p ∈ l, ∀ c, lookupA s.successorCounts p = some c →
        (c = 1 → lookupA s'.successorCounts p = none ∧
          (s'.heap p).stack = (s.heap p).stack.dropLast ∧
          (p, (0 : Int)) ∈ s'.updatedJobs) ∧
        (c ≠ 1 → lookupA s'.successorCounts p = some (c - 1) ∧ s'.heap p = s.heap p) := by
  intro l
  induction l with
  | nil =>
    intro s s' _ _ h
    simp only [updatePredecessorsList] at h
    obtain rfl := Except.ok.inj h
    exact ⟨rfl, rfl, fun q _ => ⟨rfl, rfl⟩, fun e he => he, fun p hp => by simp at hp⟩
  | cons p0 ps ih =>
    intro s s' hnd hkeys h
    have hp0 : p0 ∉ ps := (List.nodup_cons.mp hnd).1
    have hnd' : ps.Nodup := (List.nodup_cons.mp hnd).2
    simp only [updatePredecessorsList] at h
    split at h
    · exact absurd h (by simp)
    · rename_i s1 heq
      cases hc0 : lookupA s.successorCounts p0 with
      | none => rw [updatePredecessorStep, hc0] at heq; exact absurd heq (by simp)
      | some c0 =>
        have hstep := updatePredecessorStep_char hc0 hkeys heq
        have hres := ih s1 s' hnd' hstep.2.2.1 h
        refine ⟨hstep.1 ▸ hres.1, hstep.2.1 ▸ hres.2.1, ?_, ?_, ?_⟩
        · intro q hq
          simp only [List.mem_cons] at hq
          push_neg at hq
          obtain ⟨hq0, hqs⟩ := hq
          obtain ⟨hcq, hhq⟩ := hres.2.2.1 q hqs
          exact ⟨hcq.trans (hstep.2.2.2.1 q hq0),
            hhq.trans (hstep.2.2.2.2.1 q hq0)⟩
        · intro e he
          exact hres.2.2.2.1 e (hstep.2.2.2.2.2.1 e he)
        · intro p hp c hc
          rcases List.mem_cons.mp hp with rfl | hp
          · have hcc : c = c0 := by
              rw [hc0] at hc
              exact (Option.some.inj hc).symm
            subst hcc
            constructor
            · intro h1
              obtain ⟨ha, hb, hcmem⟩ := hstep.2.2.2.2.2.2.1 h1
              obtain ⟨hqc, hqh⟩ := hres.2.2.1 p hp0
              exact ⟨hqc.trans ha, hqh ▸ hb, hres.2.2.2.1 _ hcmem⟩
            · intro h1
              obtain ⟨ha, hb, -⟩ := hstep.2.2.2.2.2.2.2 h1
              obtain ⟨hqc, hqh⟩ := hres.2.2.1 p hp0
              exact ⟨hqc.trans ha, hqh.trans hb⟩
          · have hps : p ≠ p0 := fun hh => hp0 (hh ▸ hp)
            have hc1 : lookupA s1.successorCounts p = some c :=
              (hstep.2.2.2.1 p hps).trans hc
            have := (hres.2.2.2.2) p hp c hc1
            have hph : s1.heap p = s.heap p := hstep.2.2.2.2.1 p hps
            constructor
            · intro h1
              obtain ⟨ha, hb, hcmem⟩ := this.1 h1
              exact ⟨ha, hph ▸ hb, hcmem⟩
            · intro h1
              obtain ⟨ha, hb⟩ := this.2 h1
              exact ⟨ha, hb.trans hph⟩

/-- Claim C6: for a non-service, non-root finished job `jobStoreID`,
`_updatePredecessorStatus` removes `jobStoreID` from
`successorJobStoreIDToPredecessorJobs` and, for each predecessor `P` in the
removed list, decrements `successorCounts[P.id]` (lookup of an initial
count `c` becomes `c - 1`); whenever the count reaches zero the key is
removed, the top group of `P.stack` is popped, and `(P, 0)` is added to
`updatedJobs`. -/
theorem C6_updatePredecessorStatus (jobStoreID : JobID) (s : TState) (l : List JobID)
    (hsvc : lookupA s.serviceJobStoreIDToPredecessorJob jobStoreID = none)
    (hpred : lookupA s.successorJobStoreIDToPredecessorJobs jobStoreID = some l)
    (hkeys : (s.successorJobStoreIDToPredecessorJobs.map Prod.fst).Nodup)
    (hckeys : (s.successorCounts.map Prod.fst).Nodup)
    (hl : l.Nodup) :
    ResultOK (updatePredecessorStatus jobStoreID s) fun s' =>
      lookupA s'.successorJobStoreIDToPredecessorJobs jobStoreID = none ∧
      ∀ p ∈ l, ∀ c, lookupA s.successorCounts p = some c →
        (c = 1 → lookupA s'.successorCounts p = none ∧
          (s'.heap p).stack = (s.heap p).stack.dropLast ∧
          (p, (0 : Int)) ∈ s'.updatedJobs) ∧
        (c ≠ 1 → lookupA s'.successorCounts p = some (c - 1) ∧ s'.heap p = s.heap p) := by
  refine resultOK_of_ok ?_
  intro s' hres
  simp only [updatePredecessorStatus, hsvc, hpred] at hres
  have hfold := by
    refine updatePredecessorsList_char l _ s' hl ?_ hres
    exact hckeys
  constructor
  · rw [hfold.1]
    exact lookupA_eraseA_self _ _ hkeys
  · exact hfold.2.2.2.2

/-- A concrete state for exercising `updatePredecessorStatus`: job 9 has
finished; its predecessors 1 (count 1, one stack group) and 2 (count 2). -/
def c6Heap : JobID → JobRecord := fun j =>
  if j = 1 then ⟨none, none, [], [[⟨9, 0, 0, 0, false, none⟩]], 1, ∅⟩
  else ⟨none, none, [], [], 1, ∅⟩

def c6State : TState where
  heap := c6Heap
  successorJobStoreIDToPredecessorJobs := [(9, [1, 2])]
  successorCounts := [(1, 1), (2, 2)]
  serviceJobStoreIDToPredecessorJob := []
  servicesIssued := []
  jobsToBeScheduledWithMultiplePredecessors := ∅
  updatedJobs := ∅
  hasFailedSuccessors := ∅
  failedSuccessors := ∅
  totalFailedJobs := ∅
  opLog := []

/-- Witness for C6: the hypotheses hold at job 9 of `c6State` with
predecessor list [1, 2]. -/
theorem C6_updatePredecessorStatus_witness :
    lookupA c6State.serviceJobStoreIDToPredecessorJob 9 = none ∧
    lookupA c6State.successorJobStoreIDToPredecessorJobs 9 = some [1, 2] ∧
    ResultOK (updatePredecessorStatus 9 c6State) (fun s' =>
      lookupA s'.successorJobStoreIDToPredecessorJobs 9 = none ∧
      ∀ p ∈ [1, 2], ∀ c, lookupA c6State.successorCounts p = some c →
        (c = 1 → lookupA s'.successorCounts p = none ∧
          (s'.heap p).stack = (c6State.heap p).stack.dropLast ∧
          (p, (0 : Int)) ∈ s'.updatedJobs) ∧
        (c ≠ 1 → lookupA s'.successorCounts p = some (c - 1) ∧
          s'.heap p = c6State.heap p)) :=
  ⟨rfl, rfl, C6_updatePredecessorStatus 9 c6State [1, 2] rfl rfl
    (by decide) (by decide) (by decide)⟩

/-- Consecutive invocations of `reissueMissingJobs` with the leader's
tracked set and the batch system's issued set unchanged, threading the
persistent `reissueMissingJobs_missingHash` between calls; returns the
result of every call. -/
def reissueMissingJobsSeq (trackedIDs : List JobID) (runningJobs : Finset JobID)
    (killAfterNTimesMissing : Nat) :
    Nat → List (JobID × Nat) → Except PyErr (List ReissueResult)
  | 0, _ => .ok []
  | n + 1, hash =>
    match reissueMissingJobs trackedIDs runningJobs hash killAfterNTimesMissing with
    | .error e => .error e
    | .ok r =>
      match reissueMissingJobsSeq trackedIDs runningJobs killAfterNTimesMissing n
          r.missingHash with
      | .error e => .error e
      | .ok rs => .ok (r :: rs)

theorem reissueLoop_frame (killAfter : Nat) :
    ∀ js hash kills (j : JobID), j ∉ js →
      lookupA (reissueMissingJobsLoop killAfter js hash kills).1 j = lookupA hash j ∧
      (j ∈ (reissueMissingJobsLoop killAfter js hash kills).2 ↔ j ∈ kills) := by
  intro js
  induction js with
  | nil => intro hash kills j _; exact ⟨rfl, Iff.rfl⟩
  | cons j0 js' ih =>
    intro hash kills j hj
    simp only [List.mem_cons] at hj
    push_neg at hj
    simp only [reissueMissingJobsLoop]
    have hh1 : lookupA (match lookupA hash j0 with
        | some c => setA hash j0 (c + 1)
        | none => setA hash j0 1) j = lookupA hash j := by
      cases lookupA hash j0 <;> simp [lookupA_setA_ne _ hj.1]
    split
    · obtain ⟨h1, h2⟩ := ih _ _ j hj.2
      refine ⟨?_, ?_⟩
      · rw [h1, lookupA_eraseA_ne _ hj.1]
        exact hh1
      · rw [h2]
        simp [hj.1]
    · obtain ⟨h1, h2⟩ := ih _ _ j hj.2
      exact ⟨h1.trans hh1, h2⟩

theorem reissueLoop_keysNodup (killAfter : Nat) :
    ∀ js hash kills, (hash.map Prod.fst).Nodup →
      ((reissueMissingJobsLoop killAfter js hash kills).1.map Prod.fst).Nodup := by
  intro js
  induction js with
  | nil => intro hash kills h; exact h
  | cons j0 js' ih =>
    intro hash kills h
    simp only [reissueMissingJobsLoop]
    have hk1 : ((match lookupA hash j0 with
        | some c => setA hash j0 (c + 1)
        | none => setA hash j0 1).map Prod.fst).Nodup := by
      cases lookupA hash j0 <;> exact keysNodup_setA _ _ _ h
    split
    · exact ih _ _ (keysNodup_eraseA _ _ hk1)
    · exact ih _ _ hk1

/-- The counter a missing job reaches during one pass of the loop. -/
def nextMissingCount (hash : List (JobID × Nat)) (j : JobID) : Nat :=
  match lookupA hash j with
  | some c => c + 1
  | none => 1

theorem reissueLoop_mem (killAfter : Nat) :
    ∀ js hash kills (j : JobID), js.Nodup → (hash.map Prod.fst).Nodup → j ∈ js →
      (nextMissingCount hash j = killAfter →
        lookupA (reissueMissingJobsLoop killAfter js hash kills).1 j = none ∧
        j ∈ (reissueMissingJobsLoop killAfter js hash kills).2) ∧
      (nextMissingCount hash j ≠ killAfter →
        lookupA (reissueMissingJobsLoop killAfter js hash kills).1 j
          = some (nextMissingCount hash j) ∧
        (j ∈ (reissueMissingJobsLoop killAfter js hash kills).2 ↔ j ∈ kills)) := by
  intro js
  induction js with
  | nil => intro hash kills j _ _ hj; simp at hj
  | cons j0 js' ih =>
    intro hash kills j hnd hkeys hj
    have hnd0 : j0 ∉ js' := (List.nodup_cons.mp hnd).1
    have hnd' : js'.Nodup := (List.nodup_cons.mp hnd).2
    rcases List.mem_cons.mp hj with rfl | hj'
    · -- the head is our job: its hash entry is updated now
      simp only [reissueMissingJobsLoop]
      have hset : lookupA (match lookupA hash j with
          | some c => setA hash j (c + 1)
          | none => setA hash j 1) j = some (nextMissingCount hash j) := by
        cases hx : lookupA hash j <;>
          simp [nextMissingCount, hx, lookupA_setA_self]
      have hk1 : ((match lookupA hash j with
          | some c => setA hash j (c + 1)
          | none => setA hash j 1).map Prod.fst).Nodup := by
        cases lookupA hash j <;> exact keysNodup_setA _ _ _ hkeys
      split
      · rename_i hkill
        rw [hset] at hkill
        simp only [Option.getD_some] at hkill
        obtain ⟨h1, h2⟩ := reissueLoop_frame killAfter js' _ _ j hnd0
        constructor
        · intro _
          refine ⟨?_, ?_⟩
          · rw [h1]
            exact lookupA_eraseA_self _ _ hk1
          · rw [h2]
            simp
        · intro hne
          exact absurd hkill hne
      · rename_i hkill
        rw [hset] at hkill
        simp only [Option.getD_some] at hkill
        obtain ⟨h1, h2⟩ := reissueLoop_frame killAfter js' _ _ j hnd0
        constructor
        · intro heq
          exact absurd heq hkill
        · intro _
          exact ⟨h1.trans hset, h2⟩
    · -- our job sits further down the list
      have hj0 : j ≠ j0 := fun hh => hnd0 (hh ▸ hj')
      simp only [reissueMissingJobsLoop]
      have hh1 : lookupA (match lookupA hash j0 with
          | some c => setA hash j0 (c + 1)
          | none => setA hash j0 1) j = lookupA hash j := by
        cases lookupA hash j0 <;> simp [lookupA_setA_ne _ hj0]
      have hk1 : ((match lookupA hash j0 with
          | some c => setA hash j0 (c + 1)
          | none => setA hash j0 1).map Prod.fst).Nodup := by
        cases lookupA hash j0 <;> exact keysNodup_setA _ _ _ hkeys
      have hnmc : ∀ hash1 : List (JobID × Nat), lookupA hash1 j = lookupA hash j →
          nextMissingCount hash1 j = nextMissingCount hash j := by
        intro hash1 hh
        simp [nextMissingCount, hh]
      split
      · -- the head job was killed this pass
        have hih := ih (eraseA (match lookupA hash j0 with
            | some c => setA hash j0 (c + 1)
            | none => setA hash j0 1) j0) (kills ++ [j0]) j hnd'
          (keysNodup_eraseA _ _ hk1) hj'
        have heq : lookupA (eraseA (match lookupA hash j0 with
            | some c => setA hash j0 (c + 1)
            | none => setA hash j0 1) j0) j = lookupA hash j := by
          rw [lookupA_eraseA_ne _ hj0]
          exact hh1
        rw [hnmc _ heq] at hih
        refine ⟨hih.1, fun hne => ⟨(hih.2 hne).1, ((hih.2 hne).2).trans ?_⟩⟩
        simp [hj0]
      · have hih := ih (match lookupA hash j0 with
            | some c => setA hash j0 (c + 1)
            | none => setA hash j0 1) kills j hnd' hk1 hj'
        rw [hnmc _ hh1] at hih
        exact hih

theorem keysNodup_filter {α : Type} (m : List (JobID × α)) (f : JobID × α → Bool)
    (h : (m.map Prod.fst).Nodup) : ((m.filter f).map Prod.fst).Nodup := by
  induction m with
  | nil => simp
  | cons p ps ih =>
    simp only [List.map_cons, List.nodup_cons] at h
    by_cases hf : f p
    · simp only [List.filter_cons, hf, if_true, List.map_cons, List.nodup_cons]
      refine ⟨fun hmm => h.1 ?_, ih h.2⟩
      obtain ⟨q, hq, hqq⟩ := List.mem_map.mp hmm
      exact List.mem_map.mpr ⟨q, (List.mem_filter.mp hq).1, hqq⟩
    · simp only [List.filter_cons, hf, if_false, Bool.false_eq_true]
      exact ih h.2

theorem reissueMissingJobs_char (trackedIDs : List JobID) (runningJobs : Finset JobID)
    (missingHash : List (JobID × Nat)) (killAfter : Nat)
    (htrk : trackedIDs.Nodup) (hkeys : (missingHash.map Prod.fst).Nodup) :
    ResultOK (reissueMissingJobs trackedIDs runningJobs missingHash killAfter) fun r =>
      (r.missingHash.map Prod.fst).Nodup ∧
      r.processFinishedCalls = r.jobsToKill.map (fun i => (i, (1 : Int))) ∧
      (r.hasNoMissingJobs = true ↔ r.missingHash = []) ∧
      (∀ j, j ∉ trackedIDs → lookupA r.missingHash j = none) ∧
      (∀ j, j ∈ trackedIDs → j ∈ runningJobs →
        lookupA r.missingHash j = lookupA missingHash j ∧ j ∉ r.jobsToKill) ∧
      (∀ j, j ∈ trackedIDs → j ∉ runningJobs →
        (nextMissingCount missingHash j = killAfter →
          lookupA r.missingHash j = none ∧ j ∈ r.jobsToKill ∧
          (j, (1 : Int)) ∈ r.processFinishedCalls) ∧
        (nextMissingCount missingHash j ≠ killAfter →
          lookupA r.missingHash j = some (nextMissingCount missingHash j) ∧
          j ∉ r.jobsToKill)) := by
  refine resultOK_of_ok ?_
  intro r hres
  simp only [reissueMissingJobs] at hres
  split at hres
  · obtain rfl := Except.ok.inj hres
    set hash1 := missingHash.filter (fun p => p.1 ∈ trackedIDs) with hhash1
    set missingNow := trackedIDs.filter (fun j => j ∉ runningJobs) with hmn
    have hkeys1 : (hash1.map Prod.fst).Nodup := keysNodup_filter _ _ hkeys
    have hndm : missingNow.Nodup := List.Nodup.filter _ htrk
    have hlook1 : ∀ j, lookupA hash1 j =
        if j ∈ trackedIDs then lookupA missingHash j else none := by
      intro j
      simpa using lookupA_filter_key missingHash (fun k => decide (k ∈ trackedIDs)) j
    refine ⟨reissueLoop_keysNodup killAfter _ _ _ hkeys1, rfl, ?_, ?_, ?_, ?_⟩
    · simp [killJobs, List.isEmpty_iff]
    · intro j hj
      have hj1 : j ∉ missingNow := fun hh => hj (List.mem_filter.mp hh).1
      rw [(reissueLoop_frame killAfter missingNow hash1 [] j hj1).1, hlook1 j,
        if_neg hj]
    · intro j hjt hjr
      have hj1 : j ∉ missingNow := by
        intro hh
        have := (List.mem_filter.mp hh).2
        simp at this
        exact this hjr
      obtain ⟨h1, h2⟩ := reissueLoop_frame killAfter missingNow hash1 [] j hj1
      refine ⟨h1.trans (by rw [hlook1 j, if_pos hjt]), ?_⟩
      intro hmm
      simpa using h2.mp hmm
    · intro j hjt hjr
      have hj1 : j ∈ missingNow := List.mem_filter.mpr ⟨hjt, by simpa using hjr⟩
      have hmem := reissueLoop_mem killAfter missingNow hash1 [] j hndm hkeys1 hj1
      have hn1 : nextMissingCount hash1 j = nextMissingCount missingHash j := by
        simp [nextMissingCount, hlook1 j, if_pos hjt]
      rw [hn1] at hmem
      constructor
      · intro hkill
        obtain ⟨ha, hb⟩ := hmem.1 hkill
        exact ⟨ha, hb, by simpa [killJobs] using hb⟩
      · intro hne
        obtain ⟨ha, hb⟩ := hmem.2 hne
        refine ⟨ha, fun hmm => ?_⟩
        simpa using hb.mp hmm
  · exact absurd hres (by simp)

theorem reissueSeq_length (trackedIDs : List JobID) (runningJobs : Finset JobID)
    (killAfter : Nat) :
    ∀ n hash rs, reissueMissingJobsSeq trackedIDs runningJobs killAfter n hash = .ok rs →
      rs.length = n := by
  intro n
  induction n with
  | zero =>
    intro hash rs h
    simp only [reissueMissingJobsSeq] at h
    obtain rfl := Except.ok.inj h
    rfl
  | succ n' ih =>
    intro hash rs h
    simp only [reissueMissingJobsSeq] at h
    split at h
    · exact absurd h (by simp)
    · split at h
      · exact absurd h (by simp)
      · rename_i r heq rs' heq2
        obtain rfl := Except.ok.inj h
        simp [ih _ _ heq2]

theorem reissueSeq_kill (trackedIDs : List JobID) (runningJobs : Finset JobID)
    (killAfter : Nat) (j : JobID) (htrk : trackedIDs.Nodup) (hjt : j ∈ trackedIDs)
    (hjr : j ∉ runningJobs) :
    ∀ k hash, (hash.map Prod.fst).Nodup → 1 ≤ k →
      nextMissingCount hash j + (k - 1) = killAfter →
      ResultOK (reissueMissingJobsSeq trackedIDs runningJobs killAfter k hash) fun rs =>
        ∃ r, rs.getLast? = some r ∧ j ∈ r.jobsToKill ∧
          (j, (1 : Int)) ∈ r.processFinishedCalls := by
  intro k
  induction k with
  | zero => intro hash _ hk; omega
  | succ k' ih =>
    intro hash hkeys _ harith
    refine resultOK_of_ok ?_
    intro rs hres
    simp only [reissueMissingJobsSeq] at hres
    split at hres
    · exact absurd hres (by simp)
    · rename_i r heq
      have hchar := reissueMissingJobs_char trackedIDs runningJobs hash killAfter htrk hkeys
      rw [heq] at hchar
      by_cases hk0 : k' = 0
      · -- this is the last of the counted invocations: the job is killed now
        subst hk0
        have hkill : nextMissingCount hash j = killAfter := by omega
        obtain ⟨-, hb, hc⟩ := (hchar.2.2.2.2.2 j hjt hjr).1 hkill
        split at hres
        · exact absurd hres (by simp)
        · rename_i rs' heq2
          obtain rfl := Except.ok.inj hres
          have : rs' = [] := List.length_eq_zero.mp (reissueSeq_length _ _ _ _ _ _ heq2)
          subst this
          exact ⟨r, rfl, hb, hc⟩
      · -- the job stays missing and its count grows by one
        have hne : nextMissingCount hash j ≠ killAfter := by omega
        obtain ⟨ha, -⟩ := (hchar.2.2.2.2.2 j hjt hjr).2 hne
        split at hres
        · exact absurd hres (by simp)
        · rename_i rs' heq2
          obtain rfl := Except.ok.inj hres
          have hnext : nextMissingCount r.missingHash j
              = nextMissingCount hash j + 1 := by
            simp [nextMissingCount, ha]
          have hih := ih r.missingHash hchar.1 (by omega) (by omega)
          rw [heq2] at hih
          obtain ⟨rl, hrl, hrk, hrc⟩ := hih
          exact ⟨rl, List.mem_getLast?_cons hrl, hrk, hrc⟩

/-- Claim C7 (amended): across consecutive invocations with the tracked and
batch-issued sets fixed, a job that stays missing and starts uncounted is
killed — and routed through `processFinishedJob` with result 1 — by the
`killAfterNTimesMissing`-th invocation; a job the leader no longer tracks
has its count cleared, while a job that reappears in the batch system's
issued set keeps its previous count and is not killed; the function returns
true iff the missing hash is empty after the update. -/
theorem C7_reissueMissingJobs_amended :
    (∀ (trackedIDs : List JobID) (runningJobs : Finset JobID) (killAfter : Nat)
        (j : JobID) (hash : List (JobID × Nat)),
      trackedIDs.Nodup → (hash.map Prod.fst).Nodup → j ∈ trackedIDs →
      j ∉ runningJobs → lookupA hash j = none → 1 ≤ killAfter →
      ResultOK (reissueMissingJobsSeq trackedIDs runningJobs killAfter killAfter hash)
        fun rs => ∃ r, rs.getLast? = some r ∧ j ∈ r.jobsToKill ∧
          (j, (1 : Int)) ∈ r.processFinishedCalls) ∧
    (∀ (trackedIDs : List JobID) (runningJobs : Finset JobID)
        (hash : List (JobID × Nat)) (killAfter : Nat),
      trackedIDs.Nodup → (hash.map Prod.fst).Nodup →
      ResultOK (reissueMissingJobs trackedIDs runningJobs hash killAfter) fun r =>
        (∀ j, j ∉ trackedIDs → lookupA r.missingHash j = none) ∧
        (∀ j, j ∈ trackedIDs → j ∈ runningJobs →
          lookupA r.missingHash j = lookupA hash j ∧ j ∉ r.jobsToKill) ∧
        (r.hasNoMissingJobs = true ↔ r.missingHash = []) ∧
        r.processFinishedCalls = r.jobsToKill.map (fun i => (i, (1 : Int)))) := by
  constructor
  · intro tracked running killAfter j hash htrk hkeys hjt hjr hnone hka
    refine reissueSeq_kill tracked running killAfter j htrk hjt hjr killAfter hash
      hkeys hka ?_
    simp only [nextMissingCount, hnone]
    omega
  · intro tracked running hash killAfter htrk hkeys
    have h := reissueMissingJobs_char tracked running hash killAfter htrk hkeys
    cases hres : reissueMissingJobs tracked running hash killAfter with
    | error e => exact resultOK_error
    | ok r =>
      rw [hres] at h
      exact ⟨h.2.2.2.1, h.2.2.2.2.1, h.2.2.1, h.2.1⟩

/-- Counterexample to claim C7 as stated: tracked = [1], the batch system
reports job 1 issued again, and the hash records one earlier miss.  The
call keeps the stale entry `(1, 1)` — the claim says a reappearing job has
its count cleared — and returns false although no job is currently
missing. -/
theorem C7_reissueMissingJobs_counterexample :
    reissueMissingJobs [1] ({1} : Finset JobID) [(1, 1)] 3 =
      .ok ⟨[(1, 1)], [], [], false⟩ ∧
    [1].filter (fun j => j ∉ ({1} : Finset JobID)) = [] :=
  ⟨rfl, rfl⟩

theorem union_insert_absorb {a : JobID} {s t : Finset JobID} (ha : a ∈ t) :
    insert a s ∪ t = s ∪ t := by
  ext x
  simp only [Finset.mem_union, Finset.mem_insert]
  constructor
  · rintro ((rfl | h) | h)
    · exact Or.inr ha
    · exact Or.inl h
    · exact Or.inr h
  · rintro (h | h)
    · exact Or.inl (Or.inr h)
    · exact Or.inr h

/-- What one traversal call of `getSuccessors` establishes: the successor
set only grows, `alreadySeenSuccessors` ends as its union with the found
successors, found successors were unseen, every tuple of the processed list
is covered, and every found ID is an immediate successor of the processed
list or of a found job that still exists in the job store. -/
def SuccPost (ex : JobID → Bool) (heap : JobID → JobRecord) (ts : List SuccTuple)
    (succ seen succ' seen' : Finset JobID) : Prop :=
  succ ⊆ succ' ∧ seen' = seen ∪ succ' ∧
  (∀ x ∈ succ', x ∈ succ ∨ x ∉ seen) ∧
  (∀ t ∈ ts, t.succID ∈ seen ∨ t.succID ∈ succ') ∧
  (∀ x ∈ succ', x ∈ succ ∨ (∃ t ∈ ts, t.succID = x) ∨
    ∃ y ∈ succ', ex y = true ∧ ∃ t ∈ (heap y).stack.flatten, t.succID = x)

theorem succPost_list_of (ex : JobID → Bool) (heap : JobID → JobRecord) (n : Nat)
    (hrec : ∀ jw succ seen succ' seen', succ ⊆ seen →
      successorRecursion ex heap n jw succ seen = .ok (succ', seen') →
      SuccPost ex heap jw.stack.flatten succ seen succ' seen') :
    ∀ ts succ seen succ' seen', succ ⊆ seen →
      successorRecursionList ex heap n ts succ seen = .ok (succ', seen') →
      SuccPost ex heap ts succ seen succ' seen' := by
  intro ts
  induction ts with
  | nil =>
    intro succ seen succ' seen' hss h
    simp only [successorRecursionList] at h
    obtain ⟨rfl, rfl⟩ := Prod.mk.injEq .. ▸ Except.ok.inj h
    exact ⟨fun x hx => hx, (Finset.union_eq_left.mpr hss).symm,
      fun x hx => Or.inl hx, fun t ht => by simp at ht, fun x hx => Or.inl hx⟩
  | cons t ts' ih =>
    intro succ seen succ' seen' hss h
    simp only [successorRecursionList] at h
    split at h
    · -- the head successor was already seen: skipped entirely
      rename_i hseen
      obtain post := ih succ seen succ' seen' hss h
      refine ⟨post.1, post.2.1, post.2.2.1, ?_, ?_⟩
      · intro u hu
        rcases List.mem_cons.mp hu with rfl | hu
        · exact Or.inl hseen
        · exact post.2.2.2.1 u hu
      · intro x hx
        rcases post.2.2.2.2 x hx with hc | ⟨u, hu, hc⟩ | hc
        · exact Or.inl hc
        · exact Or.inr (Or.inl ⟨u, List.mem_cons_of_mem t hu, hc⟩)
        · exact Or.inr (Or.inr hc)
    · -- a new successor
      rename_i hseen
      have hss1 : insert t.succID succ ⊆ insert t.succID seen :=
        Finset.insert_subset_insert _ hss
      split at h
      · -- it still exists in the job store: descend
        rename_i hex
        split at h
        · exact absurd h (by simp)
        · rename_i succ2 seen2 heq
          have postin := hrec _ _ _ _ _ hss1 heq
          have hss2 : succ2 ⊆ seen2 := by
            rw [postin.2.1]
            exact Finset.subset_union_right
          have postout := ih _ _ _ _ hss2 h
          have hsubsucc : insert t.succID succ ⊆ succ' :=
            postin.1.trans postout.1
          have hsid : t.succID ∈ succ' := hsubsucc (Finset.mem_insert_self _ _)
          refine ⟨?_, ?_, ?_, ?_, ?_⟩
          · exact (Finset.subset_insert _ _).trans hsubsucc
          · rw [postout.2.1, postin.2.1,
              Finset.union_assoc, Finset.union_eq_right.mpr postout.1,
              union_insert_absorb hsid]
          · intro x hx
            rcases postout.2.2.1 x hx with hx2 | hx2
            · rcases postin.2.2.1 x hx2 with hx1 | hx1
              · rcases Finset.mem_insert.mp hx1 with rfl | hx0
                · exact Or.inr hseen
                · exact Or.inl hx0
              · exact Or.inr (fun hmm => hx1 (Finset.mem_insert_of_mem hmm))
            · exact Or.inr (fun hmm => hx2 (by
                rw [postin.2.1]
                exact Finset.mem_union_left _ (Finset.mem_insert_of_mem hmm)))
          · intro u hu
            rcases List.mem_cons.mp hu with rfl | hu
            · exact Or.inr hsid
            · rcases postout.2.2.2.1 u hu with hu2 | hu2
              · rw [postin.2.1] at hu2
                rcases Finset.mem_union.mp hu2 with hu1 | hu1
                · rcases Finset.mem_insert.mp hu1 with heq1 | hu0
                  · exact Or.inr (heq1 ▸ hsid)
                  · exact Or.inl hu0
                · exact Or.inr (postout.1 hu1)
              · exact Or.inr hu2
          · intro x hx
            rcases postout.2.2.2.2 x hx with hx2 | ⟨u, hu, hc⟩ | hc
            · rcases postin.2.2.2.2 x hx2 with hx1 | ⟨u, hu, hc⟩ | ⟨y, hy, hey, hc⟩
              · rcases Finset.mem_insert.mp hx1 with rfl | hx0
                · exact Or.inr (Or.inl ⟨t, List.mem_cons_self t ts', rfl⟩)
                · exact Or.inl hx0
              · exact Or.inr (Or.inr ⟨t.succID, hsid, hex, u, hu, hc⟩)
              · exact Or.inr (Or.inr ⟨y, postout.1 hy, hey, hc⟩)
            · exact Or.inr (Or.inl ⟨u, List.mem_cons_of_mem t hu, hc⟩)
            · exact Or.inr (Or.inr hc)
      · -- it was deleted from the job store: record it, do not descend
        rename_i hex
        have postout := ih _ _ _ _ hss1 h
        have hsid : t.succID ∈ succ' := postout.1 (Finset.mem_insert_self _ _)
        refine ⟨?_, ?_, ?_, ?_, ?_⟩
        · exact (Finset.subset_insert _ _).trans postout.1
        · rw [postout.2.1, union_insert_absorb hsid]
        · intro x hx
          rcases postout.2.2.1 x hx with hx1 | hx1
          · rcases Finset.mem_insert.mp hx1 with rfl | hx0
            · exact Or.inr hseen
            · exact Or.inl hx0
          · exact Or.inr (fun hmm => hx1 (Finset.mem_insert_of_mem hmm))
        · intro u hu
          rcases List.mem_cons.mp hu with rfl | hu
          · exact Or.inr hsid
          · rcases postout.2.2.2.1 u hu with hu1 | hu1
            · rcases Finset.mem_insert.mp hu1 with heq1 | hu0
              · exact Or.inr (heq1 ▸ hsid)
              · exact Or.inl hu0
            · exact Or.inr hu1
        · intro x hx
          rcases postout.2.2.2.2 x hx with hx1 | ⟨u, hu, hc⟩ | hc
          · rcases Finset.mem_insert.mp hx1 with rfl | hx0
            · exact Or.inr (Or.inl ⟨t, List.mem_cons_self t ts', rfl⟩)
            · exact Or.inl hx0
          · exact Or.inr (Or.inl ⟨u, List.mem_cons_of_mem t hu, hc⟩)
          · exact Or.inr (Or.inr hc)

theorem succPost_rec (ex : JobID → Bool) (heap : JobID → JobRecord) :
    ∀ (fuel : Nat) (jw : JobRecord) (succ seen succ' seen' : Finset JobID),
      succ ⊆ seen →
      successorRecursion ex heap fuel jw succ seen = .ok (succ', seen') →
      SuccPost ex heap jw.stack.flatten succ seen succ' seen' := by
  intro fuel
  induction fuel with
  | zero =>
    intro jw succ seen succ' seen' _ h
    simp [successorRecursion] at h
  | succ n ih =>
    intro jw succ seen succ' seen' hss h
    simp only [successorRecursion] at h
    exact succPost_list_of ex heap n ih _ _ _ _ _ hss h

/-- Claim C8: `getSuccessors(J, alreadySeen, jobStore)` traverses every
successor group of `J.stack` (not only the top group); it returns a set of
descendant IDs none of which was in `alreadySeen` at the start, the final
`alreadySeen` is the initial set united with the returned set, every
immediate successor of any group not already seen is returned, and every
returned ID is an immediate successor of `J` or of a returned job that
still exists in the job store (the traversal descends only into existing
jobs). -/
theorem C8_getSuccessors :
    ∀ (jobStoreExists : JobID → Bool) (heap : JobID → JobRecord) (fuel : Nat)
      (jw : JobRecord) (alreadySeenSuccessors : Finset JobID),
      ResultOK (getSuccessors jobStoreExists heap fuel jw alreadySeenSuccessors)
        fun out =>
        out.2 = alreadySeenSuccessors ∪ out.1 ∧
        (∀ x ∈ out.1, x ∉ alreadySeenSuccessors) ∧
        (∀ t ∈ jw.stack.flatten, t.succID ∉ alreadySeenSuccessors →
          t.succID ∈ out.1) ∧
        (∀ x ∈ out.1, (∃ t ∈ jw.stack.flatten, t.succID = x) ∨
          ∃ y ∈ out.1, jobStoreExists y = true ∧
            ∃ t ∈ (heap y).stack.flatten, t.succID = x) := by
  intro ex heap fuel jw seen
  refine resultOK_of_ok ?_
  intro out hres
  obtain ⟨succ', seen'⟩ := out
  simp only [getSuccessors] at hres
  have post := succPost_rec ex heap fuel jw ∅ seen succ' seen' (by simp) hres
  refine ⟨post.2.1, ?_, ?_, ?_⟩
  · intro x hx
    rcases post.2.2.1 x hx with hx0 | hx0
    · simp at hx0
    · exact hx0
  · intro t ht hns
    rcases post.2.2.2.1 t ht with hh | hh
    · exact absurd hh hns
    · exact hh
  · intro x hx
    rcases post.2.2.2.2 x hx with hx0 | h | h
    · simp at hx0
    · exact Or.inl h
    · exact Or.inr h

/-- Claim C9: `scheduleServices(J)` increases
`serviceJobsIssuedToServiceManager` by the total number of service tuples
across all of `J`'s service groups plus one, and each call to
`getServiceJobsToStart` or `getJobWrapperWhoseServicesAreRunning` that
returns a non-null value decreases it by exactly one, while a null (timed
out) return leaves the state unchanged. -/
theorem C9_serviceManager_counter :
    (∀ (sm : ServiceManagerState) (jId : JobID) (jw : JobRecord),
      (scheduleServices sm jId jw).serviceJobsIssuedToServiceManager
        = sm.serviceJobsIssuedToServiceManager
          + (((jw.services.map List.length).sum : Int) + 1)) ∧
    (∀ (sm sm' : ServiceManagerState) (jt : JobID × Nat × Nat × Nat),
      getServiceJobsToStart sm = .ok (some jt, sm') →
      sm'.serviceJobsIssuedToServiceManager
        = sm.serviceJobsIssuedToServiceManager - 1) ∧
    (∀ (sm sm' : ServiceManagerState),
      getServiceJobsToStart sm = .ok (none, sm') → sm' = sm) ∧
    (∀ (sm sm' : ServiceManagerState) (j : JobID),
      getJobWrapperWhoseServicesAreRunning sm = .ok (some j, sm') →
      sm'.serviceJobsIssuedToServiceManager
        = sm.serviceJobsIssuedToServiceManager - 1) ∧
    (∀ (sm sm' : ServiceManagerState),
      getJobWrapperWhoseServicesAreRunning sm = .ok (none, sm') → sm' = sm) := by
  refine ⟨fun sm jId jw => rfl, ?_, ?_, ?_, ?_⟩
  · intro sm sm' jt h
    simp only [getServiceJobsToStart] at h
    split at h
    · simp at h
    · split at h
      · obtain ⟨h1, h2⟩ := Prod.mk.injEq .. ▸ Except.ok.inj h
        rw [← h2]
      · exact absurd h (by simp)
  · intro sm sm' h
    simp only [getServiceJobsToStart] at h
    split at h
    · obtain ⟨-, h2⟩ := Prod.mk.injEq .. ▸ Except.ok.inj h
      exact h2.symm
    · split at h
      · simp at h
      · exact absurd h (by simp)
  · intro sm sm' j h
    simp only [getJobWrapperWhoseServicesAreRunning] at h
    split at h
    · simp at h
    · split at h
      · split at h
        · obtain ⟨h1, h2⟩ := Prod.mk.injEq .. ▸ Except.ok.inj h
          rw [← h2]
        · exact absurd h (by simp)
      · exact absurd h (by simp)
  · intro sm sm' h
    simp only [getJobWrapperWhoseServicesAreRunning] at h
    split at h
    · obtain ⟨-, h2⟩ := Prod.mk.injEq .. ▸ Except.ok.inj h
      exact h2.symm
    · split at h
      · split at h
        · simp at h
        · exact absurd h (by simp)
      · exact absurd h (by simp)

/-- Counterexample to claim C4 as stated: with no totally failed jobs at
all, an `EOFError` while unpickling the root job's return value still makes
`Leader.run` raise `FailedJobsException` (carrying zero failed jobs), so
"raises iff the failed set is non-empty" is false. -/
theorem C4_leaderRunEnd_counterexample :
    leaderRunEnd ∅ (fun _ => true) "store" .eofError
      = .failedJobsException ⟨"store", 0⟩ := rfl

/-- Claim C4 (amended): after the main loop and shutdown, `Leader.run`
raises `FailedJobsException` iff the store-filtered set of totally failed
jobs is non-empty or the root return value fails to unpickle with
`EOFError`; the exception carries `numberOfFailedJobs` equal to that set's
size (and the job store locator), and when the set is empty and unpickling
succeeds the deserialized root-job return value is returned. -/
theorem C4_leaderRunEnd_amended :
    ∀ (totalFailedJobs : Finset JobID) (jobStoreExists : JobID → Bool)
      (loc : String) (up : UnpickleResult),
      ((∃ e, leaderRunEnd totalFailedJobs jobStoreExists loc up
          = .failedJobsException e) ↔
        (0 < (totalFailedJobs.filter fun j => jobStoreExists j = true).card ∨
          up = .eofError)) ∧
      (∀ e, leaderRunEnd totalFailedJobs jobStoreExists loc up
          = .failedJobsException e →
        e.numberOfFailedJobs
          = (totalFailedJobs.filter fun j => jobStoreExists j = true).card ∧
        e.jobStoreLocator = loc) ∧
      (∀ v, (totalFailedJobs.filter fun j => jobStoreExists j = true).card = 0 →
        up = .ok v →
        leaderRunEnd totalFailedJobs jobStoreExists loc up = .ok v) := by
  intro tf ex loc up
  by_cases hcard : 0 < (tf.filter fun j => ex j = true).card
  · refine ⟨?_, ?_, ?_⟩
    · simp [leaderRunEnd, hcard]
    · intro e he
      simp only [leaderRunEnd, if_pos hcard] at he
      obtain rfl := (RunOutcome.failedJobsException.injEq .. ▸ he).symm
      exact ⟨rfl, rfl⟩
    · intro v hv _
      omega
  · refine ⟨?_, ?_, ?_⟩
    · cases up <;> simp [leaderRunEnd, hcard]
    · intro e he
      cases up <;> simp only [leaderRunEnd, if_neg hcard] at he
      · exact absurd he (by simp)
      · obtain rfl := (RunOutcome.failedJobsException.injEq .. ▸ he).symm
        exact ⟨rfl, rfl⟩
      · exact absurd he (by simp)
    · intro v _ hup
      subst hup
      simp [leaderRunEnd, hcard]

/-- Claim C3 (code bug): `getJob` with a supplied `jobCache` raises
`KeyError` on a cache miss instead of falling back to `jobStore.load` — the
`try`/`except` at leader.py lines 207-210 catches `ValueError`, but a dict
lookup miss raises `KeyError`.  Without a cache the load happens. -/
theorem C3_getJob_cache_miss :
    getJob (some []) (fun _ => ⟨some 5, none, [], [], 1, ∅⟩) 7
      = .error .keyError ∧
    getJob none (fun _ => ⟨some 5, none, [], [], 1, ∅⟩) 7
      = .ok ⟨some 5, none, [], [], 1, ∅⟩ := ⟨rfl, rfl⟩
